import Mathlib

/-!
Formal model of the authoritative game server of this repository
(`src/server/gameServer.ts`).

Numbers are modelled as rationals (`ℚ`).  JavaScript comparisons of the form
`Math.sqrt d OP r` are embedded in squared form; where `r` is not a constant
that is known positive, the sign condition on `r` is made explicit so the
squared form agrees with the sqrt form.  The JS `Map` of players
(insertion-ordered, unique keys) is modelled as a `List Player` looked up by
`id`.  `Math.random()`-driven choices (spawn index, display name) and the wall
clock (`Date.now()`) are passed as explicit parameters to the corresponding
functions.  Socket events are collected into a list of `Event` values in
emission order.
-/

namespace GameServer

/-- `interface Player` of gameServer.ts. -/
structure Player where
  id : String
  x : ℚ
  z : ℚ
  angle : ℚ
  health : ℚ
  flashlightOn : Bool
  name : String
deriving DecidableEq

/-- Projectile ids in the source are the strings
`${socket.id}-${Date.now()}-${i}`; modelled as the triple this string
injectively encodes (for a fixed socket id and timestamp the index `i` is
recoverable from the string). -/
structure ProjId where
  socketId : String
  now : ℕ
  idx : ℕ
deriving DecidableEq

/-- `interface Projectile` of gameServer.ts. -/
structure Projectile where
  id : ProjId
  ownerId : String
  x : ℚ
  z : ℚ
  vx : ℚ
  vz : ℚ
  damage : ℚ
deriving DecidableEq

/-- Fire-zone ids are the strings `fire-${socket.id}-${Date.now()}`. -/
structure FireId where
  socketId : String
  now : ℕ
deriving DecidableEq

/-- `interface FireZone` of gameServer.ts. -/
structure FireZone where
  id : FireId
  x : ℚ
  z : ℚ
  radius : ℚ
  timeLeft : ℚ
deriving DecidableEq

/-- `interface GameState` of gameServer.ts. -/
structure GameState where
  players : List Player
  projectiles : List Projectile
  fireZones : List FireZone
  ringRadius : ℚ
  ringTimer : ℚ
  gameStarted : Bool
deriving DecidableEq

/-- The outbound socket events of gameServer.ts, in emission order.  Targeted
events (`io.to(id).emit`) carry the target id (`ringDamage`, `fireDamage`);
`playerMoved`/`flashlightToggled`/`playerJoined` are `socket.broadcast.emit`
(all except sender); the rest are `io.emit` (all) or `socket.emit` (`init`,
sender only). -/
inductive Event where
  | init (playerId : String) (players : List Player) (projectiles : List Projectile)
      (fireZones : List FireZone) (ringRadius ringTimer : ℚ)
  | playerJoined (p : Player)
  | playerMoved (id : String) (x z angle : ℚ)
  | projectilesFired (ownerId : String) (projectiles : List Projectile)
  | fireCreated (f : FireZone)
  | flashlightToggled (id : String) (isOn : Bool)
  | playerDamaged (id : String) (health : ℚ) (fromPlayerId : Option String)
  | playerDied (id : String) (killedBy : Option String)
  | playerRespawned (id : String) (x z health : ℚ)
  | chatMessage (playerId playerName message : String)
  | playerLeft (id : String)
  | ringDamage (targetId : String) (health : ℚ)
  | ringUpdate (radius timer : ℚ)
  | playerHit (playerId : String) (health : ℚ) (projectileId : ProjId) (fromPlayerId : String)
  | projectilesRemoved (ids : List ProjId)
  | fireDamage (targetId : String) (health : ℚ)
  | fireZonesRemoved (ids : List FireId)
deriving DecidableEq

/-- The initial `gameState` object. -/
def initialGameState : GameState :=
  { players := []
    projectiles := []
    fireZones := []
    ringRadius := 80
    ringTimer := 7 * 60
    gameStarted := false }

/-- The `spawnPoints` array. -/
def spawnPoints : List (ℚ × ℚ) :=
  [(-33, -31), (-27, -31), (-21, -31), (-6.3, -11), (-6.1, 15), (10, 5), (20, -15), (-15, 20)]

/-- A wall rectangle of the `walls` array. -/
structure Wall where
  x : ℚ
  z : ℚ
  width : ℚ
  depth : ℚ

/-- The `walls` array (server-side simplified collision walls). -/
def walls : List Wall :=
  [⟨-70, 0, 1, 80⟩, ⟨70, 0, 1, 80⟩, ⟨0, -40, 140, 1⟩, ⟨0, 40, 140, 1⟩]

/-- `getRandomSpawn()`: `Math.floor(Math.random() * spawnPoints.length)` is
modelled as the explicit index `k`. -/
def getRandomSpawn (k : Fin spawnPoints.length) : ℚ × ℚ := spawnPoints.get k

/-- `checkWallCollision(x, z)`: rectangle half-extent test with a 0.5 margin,
true if any wall contains the point. -/
def checkWallCollision (x z : ℚ) : Bool :=
  walls.any fun wall =>
    let halfWidth := wall.width / 2
    let halfDepth := wall.depth / 2
    decide (wall.x - halfWidth - 0.5 ≤ x) && decide (x ≤ wall.x + halfWidth + 0.5) &&
      decide (wall.z - halfDepth - 0.5 ≤ z) && decide (z ≤ wall.z + halfDepth + 0.5)

/-- `gameState.players.get(sid)` on the insertion-ordered player list. -/
def findPlayer (s : GameState) (sid : String) : Option Player :=
  s.players.find? fun p => p.id == sid

/-- `gameState.players.set(sid, p)`: replace the entry with key `sid` if
present, else append. -/
def setPlayer (ps : List Player) (sid : String) (p : Player) : List Player :=
  if ps.any (fun q => q.id == sid) then ps.map fun q => if q.id == sid then p else q
  else ps ++ [p]

/-- In-place mutation of the player found under key `sid`. -/
def updatePlayers (ps : List Player) (sid : String) (f : Player → Player) : List Player :=
  ps.map fun q => if q.id == sid then f q else q

/-- The connection handler: allocate the new player at a random spawn, start
the game if it has not started and there is at least one player, emit `init`
to the new connection and `playerJoined` to the others. -/
def handleConnect (sid : String) (k : Fin spawnPoints.length) (name : String) (s : GameState) :
    GameState × List Event :=
  let spawn := getRandomSpawn k
  let newPlayer : Player :=
    { id := sid, x := spawn.1, z := spawn.2, angle := 0, health := 100,
      flashlightOn := true, name := name }
  let s1 := { s with players := setPlayer s.players sid newPlayer }
  let s2 := if ¬s1.gameStarted ∧ 1 ≤ s1.players.length then { s1 with gameStarted := true } else s1
  (s2, [.init sid s2.players s2.projectiles s2.fireZones s2.ringRadius s2.ringTimer,
        .playerJoined newPlayer])

/-- `socket.on('move')`: accept only if the Euclidean distance from the last
accepted position is `< 2` (source: `Math.sqrt (dx*dx + dz*dz) < 2`, embedded
as `dx*dx + dz*dz < 4`); silently drop otherwise. -/
def handleMove (sid : String) (x z angle : ℚ) (s : GameState) : GameState × List Event :=
  match findPlayer s sid with
  | none => (s, [])
  | some player =>
    let dx := x - player.x
    let dz := z - player.z
    if dx * dx + dz * dz < 4 then
      ({ s with players := updatePlayers s.players sid fun p =>
            { p with x := x, z := z, angle := angle } },
       [.playerMoved sid x z angle])
    else (s, [])

/-- One entry of the `shoot` payload array. -/
structure ShotSpec where
  x : ℚ
  z : ℚ
  vx : ℚ
  vz : ℚ
  damage : ℚ
deriving DecidableEq

/-- `data.projectiles.map((p, i) => ...)`: stamp each payload entry with the
id `${socket.id}-${Date.now()}-${i}` and the owner. -/
def mkProjectiles (sid : String) (now : ℕ) (i : ℕ) : List ShotSpec → List Projectile
  | [] => []
  | sp :: sps =>
      { id := ⟨sid, now, i⟩, ownerId := sid, x := sp.x, z := sp.z,
        vx := sp.vx, vz := sp.vz, damage := sp.damage } :: mkProjectiles sid now (i + 1) sps

/-- `socket.on('shoot')`: drop if the player is missing or dead, else append
the stamped projectiles and emit `projectilesFired`. -/
def handleShoot (sid : String) (now : ℕ) (shots : List ShotSpec) (s : GameState) :
    GameState × List Event :=
  match findPlayer s sid with
  | none => (s, [])
  | some player =>
    if player.health ≤ 0 then (s, [])
    else
      let newProjectiles := mkProjectiles sid now 0 shots
      ({ s with projectiles := s.projectiles ++ newProjectiles },
       [.projectilesFired sid newProjectiles])

/-- `socket.on('molotov')`: drop if missing or dead, else create one fire zone
with lifetime 5000 ms and emit `fireCreated`. -/
def handleMolotov (sid : String) (now : ℕ) (x z radius : ℚ) (s : GameState) :
    GameState × List Event :=
  match findPlayer s sid with
  | none => (s, [])
  | some player =>
    if player.health ≤ 0 then (s, [])
    else
      let fireZone : FireZone := { id := ⟨sid, now⟩, x := x, z := z, radius := radius,
                                   timeLeft := 5000 }
      ({ s with fireZones := s.fireZones ++ [fireZone] }, [.fireCreated fireZone])

/-- `socket.on('toggleFlashlight')`: requires only that the player exists. -/
def handleToggleFlashlight (sid : String) (isOn : Bool) (s : GameState) : GameState × List Event :=
  match findPlayer s sid with
  | none => (s, [])
  | some _ =>
    ({ s with players := updatePlayers s.players sid fun p => { p with flashlightOn := isOn } },
     [.flashlightToggled sid isOn])

/-- `socket.on('takeDamage')`: requires a living player; clamps the new health
at 0 (`Math.max(0, health - amount)`), emits `playerDamaged`, and emits
`playerDied` when the clamped health is ≤ 0. -/
def handleTakeDamage (sid : String) (amount : ℚ) (fromPlayerId : Option String) (s : GameState) :
    GameState × List Event :=
  match findPlayer s sid with
  | none => (s, [])
  | some player =>
    if player.health > 0 then
      let health := max 0 (player.health - amount)
      ({ s with players := updatePlayers s.players sid fun p => { p with health := health } },
       [.playerDamaged sid health fromPlayerId] ++
         if health ≤ 0 then [.playerDied sid fromPlayerId] else [])
    else (s, [])

/-- `socket.on('respawn')`: only if the player exists and `health <= 0`;
resets position to a random spawn, health to 100 and angle to 0. -/
def handleRespawn (sid : String) (k : Fin spawnPoints.length) (s : GameState) :
    GameState × List Event :=
  match findPlayer s sid with
  | none => (s, [])
  | some player =>
    if player.health ≤ 0 then
      let spawn := getRandomSpawn k
      ({ s with players := updatePlayers s.players sid fun p =>
            { p with x := spawn.1, z := spawn.2, health := 100, angle := 0 } },
       [.playerRespawned sid spawn.1 spawn.2 100])
    else (s, [])

/-- `socket.on('chat')`: requires the player to exist; the message is
truncated to 200 characters (`message.substring(0, 200)`). -/
def handleChat (sid message : String) (s : GameState) : GameState × List Event :=
  match findPlayer s sid with
  | none => (s, [])
  | some player => (s, [.chatMessage sid player.name (message.take 200)])

/-- `socket.on('disconnect')`: delete the player and emit `playerLeft`. -/
def handleDisconnect (sid : String) (s : GameState) : GameState × List Event :=
  ({ s with players := s.players.filter fun p => p.id != sid }, [.playerLeft sid])

/-- `const TICK_RATE = 1000 / 60` (milliseconds). -/
def TICK_RATE : ℚ := 1000 / 60

/-- Map a per-player mutation with event emission over the player `Map`, in
iteration order (the body of a `for (const [id, player] of gameState.players)`
loop that mutates each player independently). -/
def mapWithEvents (f : Player → Player × List Event) : List Player → List Player × List Event
  | [] => ([], [])
  | p :: ps =>
    let r := f p
    let rest := mapWithEvents f ps
    (r.1 :: rest.1, r.2 ++ rest.2)

/-- Ring-damage loop body for one player: if alive and farther from the map
center (0,0) than `ringRadius` (source: `Math.sqrt (dx*dx + dz*dz) >
ringRadius`, embedded squared — the two agree because this code only runs with
`ringRadius ≥ 5 > 0`), subtract `5 * delta`, clamp at 0 with a `playerDied`
(`killedBy: 'ring'`), else notify that player with `ringDamage`. -/
def ringStepPlayer (delta ringRadius : ℚ) (p : Player) : Player × List Event :=
  if p.health > 0 then
    let dx := p.x - 0
    let dz := p.z - 0
    if dx * dx + dz * dz > ringRadius * ringRadius then
      let health := p.health - 5 * delta
      if health ≤ 0 then ({ p with health := 0 }, [.playerDied p.id (some "ring")])
      else ({ p with health := health }, [.ringDamage p.id health])
    else (p, [])
  else (p, [])

/-- The Battle-Royale ring block of the tick: only when the game has started
and `ringRadius > 5`, decrement the timer by `delta`, recompute the radius as
`max 5 (80 - (7*60 - ringTimer) * (80-5)/(7*60))`, then apply ring damage to
every player. -/
def ringStep (delta : ℚ) (s : GameState) : GameState × List Event :=
  if s.gameStarted ∧ s.ringRadius > 5 then
    let ringTimer := s.ringTimer - delta
    let shrinkRate := (80 - 5) / (7 * 60)
    let ringRadius := max 5 (80 - (7 * 60 - ringTimer) * shrinkRate)
    let r := mapWithEvents (ringStepPlayer delta ringRadius) s.players
    ({ s with ringTimer := ringTimer, ringRadius := ringRadius, players := r.1 }, r.2)
  else (s, [])

/-- `ringUpdate` broadcast, once per second: emitted when `now` and
`now - TICK_RATE` fall in different whole seconds. -/
def ringUpdateEvents (now : ℚ) (s : GameState) : List Event :=
  if ⌊now / 1000⌋ ≠ ⌊(now - TICK_RATE) / 1000⌋ then [.ringUpdate s.ringRadius s.ringTimer]
  else []

/-- Scan the player `Map` in order for the first player hit by `proj`
(`id !== ownerId`, alive, `Math.sqrt dist < 0.7` embedded as squared
`< 0.49`); apply the damage, emit `playerHit` with the not-yet-clamped health
followed by `playerDied` if it is ≤ 0, mark the projectile for removal, and
stop (the `break`). -/
def tryHitPlayers (proj : Projectile) : List Player → List Player × List ProjId × List Event
  | [] => ([], [], [])
  | p :: ps =>
    if p.id ≠ proj.ownerId ∧ p.health > 0 ∧
        (proj.x - p.x) * (proj.x - p.x) + (proj.z - p.z) * (proj.z - p.z) < 0.49 then
      let health := p.health - proj.damage
      ({ p with health := if health ≤ 0 then 0 else health } :: ps, [proj.id],
        Event.playerHit p.id health proj.id proj.ownerId ::
          if health ≤ 0 then [Event.playerDied p.id (some proj.ownerId)] else [])
    else
      let rest := tryHitPlayers proj ps
      (p :: rest.1, rest.2.1, rest.2.2)

/-- Result of one iteration of the projectile loop. -/
structure ProjStep where
  projectile : Projectile
  players : List Player
  toRemove : List ProjId
  events : List Event

/-- One iteration of the projectile loop: integrate position by
`velocity * delta`; on wall collision mark for removal and `continue`;
otherwise try the players (first hit wins), and additionally mark for removal
when the new position left the map (`|x| > 80 or |z| > 50`). -/
def stepProjectile (delta : ℚ) (players : List Player) (proj : Projectile) : ProjStep :=
  let proj := { proj with x := proj.x + proj.vx * delta, z := proj.z + proj.vz * delta }
  if checkWallCollision proj.x proj.z then ⟨proj, players, [proj.id], []⟩
  else
    let hit := tryHitPlayers proj players
    let outOfMap : List ProjId := if |proj.x| > 80 ∨ |proj.z| > 50 then [proj.id] else []
    ⟨proj, hit.1, hit.2.1 ++ outOfMap, hit.2.2⟩

/-- Accumulated result of the projectile loop. -/
structure ProjPhase where
  projectiles : List Projectile
  players : List Player
  toRemove : List ProjId
  events : List Event

/-- The projectile loop over `gameState.projectiles`, threading the mutated
player table and accumulating `projectilesToRemove` and the emitted events. -/
def projPhase (delta : ℚ) (players : List Player) : List Projectile → ProjPhase
  | [] => ⟨[], players, [], []⟩
  | proj :: projs =>
    let r := stepProjectile delta players proj
    let rest := projPhase delta r.players projs
    ⟨r.projectile :: rest.projectiles, rest.players, r.toRemove ++ rest.toRemove,
      r.events ++ rest.events⟩

/-- The projectile block of the tick: run the loop, then, if any removals were
collected, filter them out by id and broadcast `projectilesRemoved` with the
collected batch. -/
def projectilesStep (delta : ℚ) (s : GameState) : GameState × List Event :=
  let r := projPhase delta s.players s.projectiles
  ({ s with
      projectiles :=
        if r.toRemove ≠ [] then r.projectiles.filter fun p => ¬r.toRemove.contains p.id
        else r.projectiles
      players := r.players },
   r.events ++ if r.toRemove ≠ [] then [Event.projectilesRemoved r.toRemove] else [])

/-- Fire-zone damage loop body for one player: if alive and strictly inside
the zone (source: `Math.sqrt dist < fire.radius`; embedded squared together
with `0 < radius`, which the sqrt form implies since a sqrt is nonnegative),
subtract `15 * delta`, emit `fireDamage` with the not-yet-clamped health, then
clamp at 0 with a `playerDied` (`killedBy: 'fire'`). -/
def fireDamagePlayer (delta : ℚ) (fire : FireZone) (p : Player) : Player × List Event :=
  if p.health > 0 then
    let dx := fire.x - p.x
    let dz := fire.z - p.z
    if 0 < fire.radius ∧ dx * dx + dz * dz < fire.radius * fire.radius then
      let health := p.health - 15 * delta
      if health ≤ 0 then
        ({ p with health := 0 }, [.fireDamage p.id health, .playerDied p.id (some "fire")])
      else ({ p with health := health }, [.fireDamage p.id health])
    else (p, [])
  else (p, [])

/-- Result of one iteration of the fire-zone loop. -/
structure FireStep where
  fire : FireZone
  players : List Player
  toRemove : List FireId
  events : List Event

/-- One iteration of the fire-zone loop: decrement `timeLeft` by `TICK_RATE`;
if it reached ≤ 0 mark for removal and `continue`, else damage every living
player inside the zone. -/
def stepFireZone (delta : ℚ) (players : List Player) (fire : FireZone) : FireStep :=
  let fire := { fire with timeLeft := fire.timeLeft - TICK_RATE }
  if fire.timeLeft ≤ 0 then ⟨fire, players, [fire.id], []⟩
  else
    let r := mapWithEvents (fireDamagePlayer delta fire) players
    ⟨fire, r.1, [], r.2⟩

/-- Accumulated result of the fire-zone loop. -/
structure FirePhase where
  fires : List FireZone
  players : List Player
  toRemove : List FireId
  events : List Event

/-- The fire-zone loop over `gameState.fireZones`, threading the mutated
player table. -/
def firePhase (delta : ℚ) (players : List Player) : List FireZone → FirePhase
  | [] => ⟨[], players, [], []⟩
  | fire :: fires =>
    let r := stepFireZone delta players fire
    let rest := firePhase delta r.players fires
    ⟨r.fire :: rest.fires, rest.players, r.toRemove ++ rest.toRemove, r.events ++ rest.events⟩

/-- The fire-zone block of the tick: run the loop, then, if any expired zones
were collected, filter them out by id and broadcast `fireZonesRemoved`. -/
def fireZonesStep (delta : ℚ) (s : GameState) : GameState × List Event :=
  let r := firePhase delta s.players s.fireZones
  ({ s with
      fireZones :=
        if r.toRemove ≠ [] then r.fires.filter fun f => ¬r.toRemove.contains f.id
        else r.fires
      players := r.players },
   r.events ++ if r.toRemove ≠ [] then [Event.fireZonesRemoved r.toRemove] else [])

/-- One invocation of the `setInterval` game loop.  `now` and `lastTick` are
the wall-clock timestamps in milliseconds; `delta = (now - lastTick) / 1000`
seconds.  In order: ring shrink and ring damage, the once-per-second
`ringUpdate` broadcast, the projectile step, the fire-zone step. -/
def tick (now lastTick : ℚ) (s : GameState) : GameState × List Event :=
  let delta := (now - lastTick) / 1000
  let r1 := ringStep delta s
  let ru := ringUpdateEvents now r1.1
  let r2 := projectilesStep delta r1.1
  let r3 := fireZonesStep delta r2.1
  (r3.1, r1.2 ++ ru ++ r2.2 ++ r3.2)

/-- Run a sequence of ticks: each list entry is that tick's `Date.now()`, and
`lastTick` is threaded exactly as the source's `lastTick` variable. -/
def runTicks : List ℚ → ℚ → GameState → GameState
  | [], _, s => s
  | t :: ts, lastT, s => runTicks ts t (tick t lastT s).1

/-- Recognizer: a `playerDied` event for player `pid`. -/
def isPlayerDiedOf (pid : String) : Event → Bool
  | .playerDied i _ => i == pid
  | _ => false

/-- Recognizer: a `playerDied` event for player `pid` with the given killer. -/
def isPlayerDiedBy (pid : String) (killer : Option String) : Event → Bool
  | .playerDied i k => i == pid && k == killer
  | _ => false

/-- Recognizer: a targeted `ringDamage` notification to player `pid`. -/
def isRingDamageOf (pid : String) : Event → Bool
  | .ringDamage i _ => i == pid
  | _ => false

/-- Recognizer: a targeted `fireDamage` notification to player `pid`. -/
def isFireDamageOf (pid : String) : Event → Bool
  | .fireDamage i _ => i == pid
  | _ => false

/-- Recognizer: a `playerHit` event caused by projectile `prid`. -/
def isHitBy (prid : ProjId) : Event → Bool
  | .playerHit _ _ pr _ => pr == prid
  | _ => false

/-- The id batch carried by a `projectilesRemoved` event, if any. -/
def projRemovedIds : Event → Option (List ProjId)
  | .projectilesRemoved ids => some ids
  | _ => none

/-- The concatenation of the id batches of all `projectilesRemoved` events in
an event list (the tick emits at most one such batch). -/
def removedIdBatches (evs : List Event) : List ProjId :=
  (evs.filterMap projRemovedIds).flatten

/-- A living player used by witnesses. -/
def wPlayerA : Player :=
  { id := "a", x := 0, z := 0, angle := 0, health := 100, flashlightOn := true, name := "A" }

/-- A dead player used by witnesses. -/
def wPlayerDead : Player :=
  { id := "d", x := 1, z := 1, angle := 0, health := 0, flashlightOn := true, name := "D" }

/-- A small concrete world used by handler witnesses. -/
def wState : GameState :=
  { players := [wPlayerA, wPlayerDead], projectiles := [], fireZones := [],
    ringRadius := 80, ringTimer := 7 * 60, gameStarted := true }

/-- Every player of the list has health ≥ 0. -/
def HealthLB (ps : List Player) : Prop := ∀ p ∈ ps, 0 ≤ p.health

/-- Every player of the list has health ≤ 100. -/
def HealthUB (ps : List Player) : Prop := ∀ p ∈ ps, p.health ≤ 100

/-- Every projectile of the list carries nonnegative damage. -/
def DamagesNonneg (prs : List Projectile) : Prop := ∀ pr ∈ prs, 0 ≤ pr.damage

/-- A living player far outside the floor-sized ring, for the C1
counterexample. -/
def cexRingPlayer : Player :=
  { id := "a", x := 10, z := 10, angle := 0, health := 100, flashlightOn := true, name := "A" }

/-- A started game whose ring has finished shrinking (radius 5). -/
def cexRingState : GameState :=
  { players := [cexRingPlayer], projectiles := [], fireZones := [],
    ringRadius := 5, ringTimer := 0, gameStarted := true }

/-- A mid-shrink game state (radius 6 > floor) with one player far outside,
used by the C1 witness. -/
def wRingState : GameState :=
  { players := [cexRingPlayer], projectiles := [], fireZones := [],
    ringRadius := 6, ringTimer := 414 / 25, gameStarted := true }

/-- Player at (1,1) inside both overlapping fire zones (C2). -/
def c2Player : Player :=
  { id := "a", x := 1, z := 1, angle := 0, health := 100, flashlightOn := true, name := "A" }

/-- First fire zone of radius 3 centered at the origin (C2). -/
def c2Zone1 : FireZone := { id := ⟨"b", 1⟩, x := 0, z := 0, radius := 3, timeLeft := 5000 }

/-- Second, fully overlapping fire zone (C2). -/
def c2Zone2 : FireZone := { id := ⟨"b", 2⟩, x := 0, z := 0, radius := 3, timeLeft := 5000 }

/-- World with one player covered by two overlapping active fire zones (C2). -/
def c2State : GameState :=
  { players := [c2Player], projectiles := [], fireZones := [c2Zone1, c2Zone2],
    ringRadius := 80, ringTimer := 7 * 60, gameStarted := false }

/-- A player standing outside the map bound |x| > 80 (C3). -/
def c3Player : Player :=
  { id := "a", x := 81, z := 0, angle := 0, health := 100, flashlightOn := true, name := "A" }

/-- A stationary projectile owned by someone else, sitting on that player,
outside the map bounds (C3). -/
def c3Proj : Projectile :=
  { id := ⟨"b", 0, 0⟩, ownerId := "b", x := 81, z := 0, vx := 0, vz := 0, damage := 10 }

/-- World in which a projectile hits a player while out of bounds (C3). -/
def c3State : GameState :=
  { players := [c3Player], projectiles := [c3Proj], fireZones := [],
    ringRadius := 80, ringTimer := 7 * 60, gameStarted := false }

/-- A stationary projectile parked inside a wall rectangle (C3 witness). -/
def c3wProj : Projectile :=
  { id := ⟨"b", 0, 0⟩, ownerId := "b", x := 70, z := 0, vx := 0, vz := 0, damage := 10 }

/-- World whose only projectile collides with a wall this tick (C3 witness). -/
def c3wState : GameState :=
  { players := [c3Player], projectiles := [c3wProj], fireZones := [],
    ringRadius := 80, ringTimer := 7 * 60, gameStarted := false }

/-- A low-health player about to take lethal projectile damage (C10). -/
def c10Player : Player :=
  { id := "a", x := 0, z := 0, angle := 0, health := 10, flashlightOn := true, name := "A" }

/-- A 50-damage projectile sitting on that player (C10). -/
def c10Proj : Projectile :=
  { id := ⟨"b", 0, 0⟩, ownerId := "b", x := 0, z := 0, vx := 0, vz := 0, damage := 50 }

/-- World for the fatal projectile hit (C10). -/
def c10AState : GameState :=
  { players := [c10Player], projectiles := [c10Proj], fireZones := [],
    ringRadius := 80, ringTimer := 7 * 60, gameStarted := false }

/-- A nearly dead player standing in a fire zone (C10). -/
def c10FirePlayer : Player :=
  { id := "d", x := 0, z := 0, angle := 0, health := 1, flashlightOn := true, name := "D" }

/-- The fire zone engulfing that player (C10). -/
def c10Fire : FireZone := { id := ⟨"b", 0⟩, x := 0, z := 0, radius := 3, timeLeft := 5000 }

/-- World for the fatal fire-zone tick (C10). -/
def c10BState : GameState :=
  { players := [c10FirePlayer], projectiles := [], fireZones := [c10Fire],
    ringRadius := 80, ringTimer := 7 * 60, gameStarted := false }

/-- Ring-state invariant along a run of ticks that began when the game
started: the game is started, the radius equals the shrink formula applied to
the stored timer, and while the radius has not reached the floor 5 the timer
tracks the elapsed wall-clock time since `t0` (the `lastTick` at the moment
the game started, in ms). -/
def RingInv (s : GameState) (lastT t0 : ℚ) : Prop :=
  s.gameStarted = true ∧
  s.ringRadius = max 5 (80 - (7 * 60 - s.ringTimer) * ((80 - 5) / (7 * 60))) ∧
  (s.ringRadius = 5 ∨ s.ringTimer = 7 * 60 - (lastT - t0) / 1000)

end GameServer

namespace GameServer

/-! Basic lemmas about the model. -/

theorem mapWithEvents_fst (f : Player → Player × List Event) (ps : List Player) :
    (mapWithEvents f ps).1 = ps.map fun p => (f p).1 := by
  induction ps with
  | nil => rfl
  | cons p ps ih => simp [mapWithEvents, ih]

theorem mapWithEvents_snd (f : Player → Player × List Event) (ps : List Player) :
    (mapWithEvents f ps).2 = (ps.map fun p => (f p).2).flatten := by
  induction ps with
  | nil => rfl
  | cons p ps ih => simp [mapWithEvents, ih]

theorem ringStepPlayer_id (delta r : ℚ) (p : Player) :
    ((ringStepPlayer delta r p).1).id = p.id := by
  simp only [ringStepPlayer]
  split_ifs <;> rfl

theorem fireDamagePlayer_id (delta : ℚ) (fire : FireZone) (p : Player) :
    ((fireDamagePlayer delta fire p).1).id = p.id := by
  simp only [fireDamagePlayer]
  split_ifs <;> rfl

/-- `find?` by id through a per-player map that preserves ids, on a player
list decomposed around the looked-up player. -/
theorem find?_map_decomp (g : Player → Player) (hg : ∀ q, (g q).id = q.id)
    (l₁ l₂ : List Player) (p : Player) (h₁ : ∀ q ∈ l₁, q.id ≠ p.id) :
    ((l₁ ++ p :: l₂).map g).find? (fun q => q.id == p.id) = some (g p) := by
  induction l₁ with
  | nil => simp [List.find?, hg]
  | cons q l₁ ih =>
    have hq : ((g q).id == p.id) = false := by
      simp [hg, h₁ q (by simp)]
    simp only [List.map_cons, List.cons_append, List.find?]
    rw [hq]
    exact ih fun r hr => h₁ r (by simp [hr])

/-- `find?` by key after an `updatePlayers` whose mutation preserves ids. -/
theorem find?_updatePlayers (ps : List Player) (sid : String) (f : Player → Player)
    (hf : ∀ q, (f q).id = q.id) :
    (updatePlayers ps sid f).find? (fun p => p.id == sid) =
      (ps.find? fun p => p.id == sid).map f := by
  induction ps with
  | nil => rfl
  | cons q ps ih =>
    unfold updatePlayers at *
    by_cases hq : q.id = sid
    · simp [List.find?_cons, hq, hf]
    · have h1 : ¬((q.id == sid) = true) := by simp [hq]
      simp only [List.map_cons, if_neg h1]
      rw [List.find?_cons_of_neg (p := fun r : Player => r.id == sid) _ h1,
        List.find?_cons_of_neg (p := fun r : Player => r.id == sid) _ h1]
      exact ih

/-- `findPlayer` after an `updatePlayers` that preserves ids. -/
theorem findPlayer_updatePlayers (s : GameState) (sid : String) (f : Player → Player)
    (hf : ∀ q, (f q).id = q.id) (s' : GameState)
    (hs' : s'.players = updatePlayers s.players sid f) :
    findPlayer s' sid = (findPlayer s sid).map f := by
  unfold findPlayer
  rw [hs']
  exact find?_updatePlayers s.players sid f hf

theorem mkProjectiles_length (sid : String) (now : ℕ) (shots : List ShotSpec) :
    ∀ i, (mkProjectiles sid now i shots).length = shots.length := by
  induction shots with
  | nil => intro i; rfl
  | cons sp sps ih => intro i; simp [mkProjectiles, ih (i + 1)]

theorem mkProjectiles_mem (sid : String) (now : ℕ) (shots : List ShotSpec) :
    ∀ i q, q ∈ mkProjectiles sid now i shots → i ≤ q.id.idx ∧ q.ownerId = sid := by
  induction shots with
  | nil => intro i q h; simp [mkProjectiles] at h
  | cons sp sps ih =>
    intro i q h
    rw [mkProjectiles] at h
    rcases List.mem_cons.mp h with h | h
    · subst h; exact ⟨Nat.le_refl _, rfl⟩
    · obtain ⟨h1, h2⟩ := ih (i + 1) q h
      exact ⟨Nat.le_of_succ_le h1, h2⟩

theorem mkProjectiles_ids_nodup (sid : String) (now : ℕ) (shots : List ShotSpec) :
    ∀ i, ((mkProjectiles sid now i shots).map Projectile.id).Nodup := by
  induction shots with
  | nil => intro i; simp [mkProjectiles]
  | cons sp sps ih =>
    intro i
    rw [mkProjectiles]
    simp only [List.map_cons, List.nodup_cons]
    refine ⟨fun hmem => ?_, ih (i + 1)⟩
    obtain ⟨q, hq, hid⟩ := List.mem_map.mp hmem
    have h1 := (mkProjectiles_mem sid now sps (i + 1) q hq).1
    rw [hid] at h1
    exact Nat.not_succ_le_self i h1

/-- C5: a move command from an existing player is rejected with no state
change and no broadcast when the proposed position is at (squared) distance
≥ 2² = 4 from the last accepted one, and otherwise sets position and angle
exactly and broadcasts `playerMoved`. -/
theorem move_validation (s : GameState) (sid : String) (x z angle : ℚ) (player : Player)
    (hfind : findPlayer s sid = some player) :
    (4 ≤ (x - player.x) * (x - player.x) + (z - player.z) * (z - player.z) →
      handleMove sid x z angle s = (s, [])) ∧
    ((x - player.x) * (x - player.x) + (z - player.z) * (z - player.z) < 4 →
      findPlayer (handleMove sid x z angle s).1 sid =
          some { player with x := x, z := z, angle := angle } ∧
      (handleMove sid x z angle s).1.projectiles = s.projectiles ∧
      (handleMove sid x z angle s).1.fireZones = s.fireZones ∧
      (handleMove sid x z angle s).1.ringRadius = s.ringRadius ∧
      (handleMove sid x z angle s).2 = [Event.playerMoved sid x z angle]) := by
  constructor
  · intro hge
    simp only [handleMove, hfind]
    rw [if_neg (not_lt.mpr hge)]
  · intro hlt
    simp only [handleMove, hfind]
    rw [if_pos hlt]
    refine ⟨?_, rfl, rfl, rfl, rfl⟩
    rw [findPlayer_updatePlayers s sid
      (fun p => { p with x := x, z := z, angle := angle }) (fun q => rfl) _ rfl, hfind]
    rfl

/-- C5 witness: in the concrete world `wState`, a far move (to (10,0)) is
dropped whole, and a near move (to (1,0)) updates position and angle. -/
theorem move_validation_witness :
    findPlayer wState "a" = some wPlayerA ∧
    (4 ≤ ((10 : ℚ) - wPlayerA.x) * (10 - wPlayerA.x) + (0 - wPlayerA.z) * (0 - wPlayerA.z)) ∧
    handleMove "a" 10 0 1 wState = (wState, []) ∧
    (((1 : ℚ) - wPlayerA.x) * (1 - wPlayerA.x) + (0 - wPlayerA.z) * (0 - wPlayerA.z) < 4) ∧
    findPlayer (handleMove "a" 1 0 1 wState).1 "a" =
      some { wPlayerA with x := 1, z := 0, angle := 1 } := by
  have hfind : findPlayer wState "a" = some wPlayerA := by decide
  have hge : (4 : ℚ) ≤ ((10 : ℚ) - wPlayerA.x) * (10 - wPlayerA.x) +
      (0 - wPlayerA.z) * (0 - wPlayerA.z) := by norm_num [wPlayerA]
  have hlt : ((1 : ℚ) - wPlayerA.x) * (1 - wPlayerA.x) +
      (0 - wPlayerA.z) * (0 - wPlayerA.z) < 4 := by norm_num [wPlayerA]
  exact ⟨hfind, hge, (move_validation wState "a" 10 0 1 wPlayerA hfind).1 hge, hlt,
    ((move_validation wState "a" 1 0 1 wPlayerA hfind).2 hlt).1⟩

/-- C6: `takeDamage` on a living player clamps the stored health at
`max 0 (health - amount)` and emits exactly one `playerDied` exactly when the
clamped health is 0; on a dead (health = 0) or absent player it changes no
state and emits nothing. -/
theorem take_damage_clamp (s : GameState) (sid : String) (amount : ℚ) (fromId : Option String) :
    (∀ player, findPlayer s sid = some player → 0 < player.health →
      findPlayer (handleTakeDamage sid amount fromId s).1 sid =
          some { player with health := max 0 (player.health - amount) } ∧
      (handleTakeDamage sid amount fromId s).1.projectiles = s.projectiles ∧
      (handleTakeDamage sid amount fromId s).2.countP (isPlayerDiedOf sid) =
          (if player.health - amount ≤ 0 then 1 else 0)) ∧
    (∀ player, findPlayer s sid = some player → player.health = 0 →
      handleTakeDamage sid amount fromId s = (s, [])) ∧
    (findPlayer s sid = none → handleTakeDamage sid amount fromId s = (s, [])) := by
  refine ⟨fun player hfind hpos => ?_, fun player hfind hdead => ?_, fun hnone => ?_⟩
  · simp only [handleTakeDamage, hfind]
    rw [if_pos hpos]
    refine ⟨?_, rfl, ?_⟩
    · rw [findPlayer_updatePlayers s sid
        (fun p => { p with health := max 0 (player.health - amount) }) (fun q => rfl) _ rfl,
        hfind]
      rfl
    · by_cases hd : player.health - amount ≤ 0
      · rw [if_pos hd, if_pos (by simpa using hd)]
        simp [isPlayerDiedOf, List.countP_cons]
      · rw [if_neg hd, if_neg (by simpa using hd)]
        simp [isPlayerDiedOf, List.countP_cons]
  · simp only [handleTakeDamage, hfind]
    rw [if_neg (by rw [hdead]; exact lt_irrefl 0)]
  · simp only [handleTakeDamage, hnone]

/-- C6 witness: player at health 100 receiving `takeDamage {amount: 150}`
ends at exactly 0 with exactly one `playerDied`; a dead player receiving
`takeDamage` is untouched. -/
theorem take_damage_clamp_witness :
    findPlayer wState "a" = some wPlayerA ∧ 0 < wPlayerA.health ∧
    findPlayer (handleTakeDamage "a" 150 none wState).1 "a" =
      some { wPlayerA with health := 0 } ∧
    (handleTakeDamage "a" 150 none wState).2.countP (isPlayerDiedOf "a") = 1 ∧
    findPlayer wState "d" = some wPlayerDead ∧ wPlayerDead.health = 0 ∧
    handleTakeDamage "d" 30 none wState = (wState, []) := by
  have hfindA : findPlayer wState "a" = some wPlayerA := by decide
  have hfindD : findPlayer wState "d" = some wPlayerDead := by decide
  have hA := (take_damage_clamp wState "a" 150 none).1 wPlayerA hfindA (by norm_num [wPlayerA])
  have hmax : max 0 (wPlayerA.health - 150) = 0 := by norm_num [wPlayerA]
  refine ⟨hfindA, by norm_num [wPlayerA], ?_, ?_, hfindD, rfl, ?_⟩
  · rw [hA.1, hmax]
  · rw [hA.2.2, if_pos (by norm_num [wPlayerA])]
  · exact (take_damage_clamp wState "d" 30 none).2.1 wPlayerDead hfindD rfl

/-- C7: a shoot command from a living player with an `N`-entry payload adds
exactly `N` projectiles, with pairwise-distinct ids, all owned by the sender;
from a missing or dead player it adds nothing and emits nothing. -/
theorem shoot_spawns_projectiles (s : GameState) (sid : String) (now : ℕ)
    (shots : List ShotSpec) :
    (∀ player, findPlayer s sid = some player → 0 < player.health →
      (handleShoot sid now shots s).1.projectiles =
          s.projectiles ++ mkProjectiles sid now 0 shots ∧
      (mkProjectiles sid now 0 shots).length = shots.length ∧
      ((mkProjectiles sid now 0 shots).map Projectile.id).Nodup ∧
      (∀ q ∈ mkProjectiles sid now 0 shots, q.ownerId = sid) ∧
      (handleShoot sid now shots s).1.players = s.players ∧
      (handleShoot sid now shots s).2 =
          [Event.projectilesFired sid (mkProjectiles sid now 0 shots)]) ∧
    (∀ player, findPlayer s sid = some player → player.health ≤ 0 →
      handleShoot sid now shots s = (s, [])) ∧
    (findPlayer s sid = none → handleShoot sid now shots s = (s, [])) := by
  refine ⟨fun player hfind hpos => ?_, fun player hfind hdead => ?_, fun hnone => ?_⟩
  · simp only [handleShoot, hfind]
    rw [if_neg (not_le.mpr hpos)]
    exact ⟨rfl, mkProjectiles_length sid now shots 0, mkProjectiles_ids_nodup sid now shots 0,
      fun q hq => (mkProjectiles_mem sid now shots 0 q hq).2, rfl, rfl⟩
  · simp only [handleShoot, hfind]
    rw [if_pos hdead]
  · simp only [handleShoot, hnone]

/-- C7 witness: a 2-pellet shot from the living player yields 2 projectiles
with distinct ids owned by "a"; a shot from the dead player is dropped. -/
theorem shoot_spawns_projectiles_witness :
    findPlayer wState "a" = some wPlayerA ∧ 0 < wPlayerA.health ∧
    (handleShoot "a" 7 [⟨0, 0, 1, 0, 10⟩, ⟨0, 0, 0, 1, 10⟩] wState).1.projectiles =
        mkProjectiles "a" 7 0 [⟨0, 0, 1, 0, 10⟩, ⟨0, 0, 0, 1, 10⟩] ∧
    (mkProjectiles "a" 7 0 [⟨0, 0, 1, 0, 10⟩, ⟨0, 0, 0, 1, 10⟩]).length = 2 ∧
    ((mkProjectiles "a" 7 0 [⟨0, 0, 1, 0, 10⟩, ⟨0, 0, 0, 1, 10⟩]).map Projectile.id).Nodup ∧
    findPlayer wState "d" = some wPlayerDead ∧ wPlayerDead.health ≤ 0 ∧
    handleShoot "d" 7 [⟨0, 0, 1, 0, 10⟩] wState = (wState, []) := by
  have hfindA : findPlayer wState "a" = some wPlayerA := by decide
  have hfindD : findPlayer wState "d" = some wPlayerDead := by decide
  have hA := (shoot_spawns_projectiles wState "a" 7 [⟨0, 0, 1, 0, 10⟩, ⟨0, 0, 0, 1, 10⟩]).1
    wPlayerA hfindA (by norm_num [wPlayerA])
  refine ⟨hfindA, by norm_num [wPlayerA], ?_, hA.2.1, hA.2.2.1, hfindD, le_of_eq rfl, ?_⟩
  · rw [hA.1]; rfl
  · exact (shoot_spawns_projectiles wState "d" 7 [⟨0, 0, 1, 0, 10⟩]).2.1 wPlayerDead hfindD
      (le_of_eq rfl)

/-- C8: respawn is a no-op (no state change, no event) while health > 0; at
health 0 it sets health to exactly 100, the position to one of the fixed
spawn points, and the angle to 0. -/
theorem respawn_requires_dead (s : GameState) (sid : String) (k : Fin spawnPoints.length) :
    (∀ player, findPlayer s sid = some player → 0 < player.health →
      handleRespawn sid k s = (s, [])) ∧
    (∀ player, findPlayer s sid = some player → player.health = 0 →
      findPlayer (handleRespawn sid k s).1 sid =
          some { player with
                 x := (getRandomSpawn k).1
                 z := (getRandomSpawn k).2
                 health := 100
                 angle := 0 } ∧
      getRandomSpawn k ∈ spawnPoints ∧
      (handleRespawn sid k s).2 =
          [Event.playerRespawned sid (getRandomSpawn k).1 (getRandomSpawn k).2 100]) := by
  refine ⟨fun player hfind hpos => ?_, fun player hfind hdead => ?_⟩
  · simp only [handleRespawn, hfind]
    rw [if_neg (not_le.mpr hpos)]
  · simp only [handleRespawn, hfind]
    rw [if_pos (le_of_eq hdead)]
    refine ⟨?_, by simp [getRandomSpawn], rfl⟩
    rw [findPlayer_updatePlayers s sid
      (fun p => { p with
        x := (getRandomSpawn k).1
        z := (getRandomSpawn k).2
        health := 100
        angle := 0 }) (fun q => rfl) _ rfl, hfind]
    rfl

/-- C8 witness: respawning the dead player resets it to spawn point 0 with
health 100 and angle 0; respawning the living player is a no-op. -/
theorem respawn_requires_dead_witness :
    findPlayer wState "a" = some wPlayerA ∧ 0 < wPlayerA.health ∧
    handleRespawn "a" ⟨0, by norm_num [spawnPoints]⟩ wState = (wState, []) ∧
    findPlayer wState "d" = some wPlayerDead ∧ wPlayerDead.health = 0 ∧
    findPlayer (handleRespawn "d" ⟨0, by norm_num [spawnPoints]⟩ wState).1 "d" =
      some { wPlayerDead with x := -33, z := -31, health := 100, angle := 0 } ∧
    ((-33 : ℚ), (-31 : ℚ)) ∈ spawnPoints := by
  have hfindA : findPlayer wState "a" = some wPlayerA := by decide
  have hfindD : findPlayer wState "d" = some wPlayerDead := by decide
  have hD := (respawn_requires_dead wState "d" ⟨0, by norm_num [spawnPoints]⟩).2 wPlayerDead
    hfindD rfl
  refine ⟨hfindA, by norm_num [wPlayerA],
    (respawn_requires_dead wState "a" ⟨0, by norm_num [spawnPoints]⟩).1 wPlayerA hfindA
      (by norm_num [wPlayerA]),
    hfindD, rfl, ?_, by norm_num [spawnPoints]⟩
  rw [hD.1]
  rfl

theorem forall_mem_updatePlayers {P : Player → Prop} (ps : List Player) (sid : String)
    (f : Player → Player) (h : ∀ p ∈ ps, P p) (hf : ∀ p ∈ ps, P (f p)) :
    ∀ q ∈ updatePlayers ps sid f, P q := by
  intro q hq
  obtain ⟨p, hp, rfl⟩ := List.mem_map.mp hq
  by_cases hps : (p.id == sid) = true
  · rw [if_pos hps]; exact hf p hp
  · rw [if_neg hps]; exact h p hp

theorem forall_mem_setPlayer {P : Player → Prop} (ps : List Player) (sid : String)
    (p : Player) (h : ∀ q ∈ ps, P q) (hp : P p) : ∀ q ∈ setPlayer ps sid p, P q := by
  intro q hq
  unfold setPlayer at hq
  split at hq
  · obtain ⟨r, hr, rfl⟩ := List.mem_map.mp hq
    split
    · exact hp
    · exact h r hr
  · rcases List.mem_append.mp hq with h1 | h1
    · exact h q h1
    · rw [List.mem_singleton.mp h1]; exact hp

theorem ringStepPlayer_health_lb (delta r : ℚ) (p : Player) (h : 0 ≤ p.health) :
    0 ≤ (ringStepPlayer delta r p).1.health := by
  simp only [ringStepPlayer]
  split_ifs <;> simp_all <;> linarith

theorem ringStepPlayer_health_ub (delta r : ℚ) (hd : 0 ≤ delta) (p : Player)
    (h : p.health ≤ 100) : (ringStepPlayer delta r p).1.health ≤ 100 := by
  simp only [ringStepPlayer]
  split_ifs <;> simp_all <;> linarith

theorem fireDamagePlayer_health_lb (delta : ℚ) (fire : FireZone) (p : Player)
    (h : 0 ≤ p.health) : 0 ≤ (fireDamagePlayer delta fire p).1.health := by
  simp only [fireDamagePlayer]
  split_ifs <;> simp_all <;> linarith

theorem fireDamagePlayer_health_ub (delta : ℚ) (fire : FireZone) (hd : 0 ≤ delta) (p : Player)
    (h : p.health ≤ 100) : (fireDamagePlayer delta fire p).1.health ≤ 100 := by
  simp only [fireDamagePlayer]
  split_ifs <;> simp_all <;> linarith

theorem tryHitPlayers_health_lb (proj : Projectile) :
    ∀ ps : List Player, HealthLB ps → HealthLB (tryHitPlayers proj ps).1 := by
  intro ps
  induction ps with
  | nil => intro _; simp [tryHitPlayers, HealthLB]
  | cons p ps ih =>
    intro h q hq
    rw [tryHitPlayers] at hq
    split at hq
    · rcases List.mem_cons.mp hq with rfl | hq
      · show (0:ℚ) ≤ if p.health - proj.damage ≤ 0 then 0 else p.health - proj.damage
        split_ifs with h1
        · exact le_refl 0
        · linarith
      · exact h q (List.mem_cons_of_mem p hq)
    · rcases List.mem_cons.mp hq with rfl | hq
      · exact h q (List.mem_cons_self q ps)
      · exact ih (fun r hr => h r (List.mem_cons_of_mem p hr)) q hq

theorem tryHitPlayers_health_ub (proj : Projectile) (hdmg : 0 ≤ proj.damage) :
    ∀ ps : List Player, HealthUB ps → HealthUB (tryHitPlayers proj ps).1 := by
  intro ps
  induction ps with
  | nil => intro _; simp [tryHitPlayers, HealthUB]
  | cons p ps ih =>
    intro h q hq
    rw [tryHitPlayers] at hq
    split at hq
    · rcases List.mem_cons.mp hq with rfl | hq
      · show (if p.health - proj.damage ≤ 0 then 0 else p.health - proj.damage) ≤ 100
        have := h p (List.mem_cons_self p ps)
        split_ifs with h1
        · norm_num
        · linarith
      · exact h q (List.mem_cons_of_mem p hq)
    · rcases List.mem_cons.mp hq with rfl | hq
      · exact h q (List.mem_cons_self q ps)
      · exact ih (fun r hr => h r (List.mem_cons_of_mem p hr)) q hq

theorem projPhase_health_lb (delta : ℚ) :
    ∀ (projs : List Projectile) (ps : List Player), HealthLB ps →
      HealthLB (projPhase delta ps projs).players := by
  intro projs
  induction projs with
  | nil => intro ps h; exact h
  | cons proj projs ih =>
    intro ps h
    rw [projPhase]
    apply ih
    simp only [stepProjectile]
    split
    · exact h
    · exact tryHitPlayers_health_lb _ ps h

theorem projPhase_health_ub (delta : ℚ) :
    ∀ (projs : List Projectile) (ps : List Player), DamagesNonneg projs → HealthUB ps →
      HealthUB (projPhase delta ps projs).players := by
  intro projs
  induction projs with
  | nil => intro ps _ h; exact h
  | cons proj projs ih =>
    intro ps hdmg h
    rw [projPhase]
    apply ih _ (fun pr hpr => hdmg pr (List.mem_cons_of_mem proj hpr))
    simp only [stepProjectile]
    split
    · exact h
    · refine tryHitPlayers_health_ub _ ?_ ps h
      exact hdmg proj (List.mem_cons_self proj projs)

theorem firePhase_health_lb (delta : ℚ) :
    ∀ (fires : List FireZone) (ps : List Player), HealthLB ps →
      HealthLB (firePhase delta ps fires).players := by
  intro fires
  induction fires with
  | nil => intro ps h; exact h
  | cons fire fires ih =>
    intro ps h
    rw [firePhase]
    apply ih
    simp only [stepFireZone]
    split
    · exact h
    · rw [mapWithEvents_fst]
      intro q hq
      obtain ⟨p, hp, rfl⟩ := List.mem_map.mp hq
      exact fireDamagePlayer_health_lb delta _ p (h p hp)

theorem firePhase_health_ub (delta : ℚ) (hd : 0 ≤ delta) :
    ∀ (fires : List FireZone) (ps : List Player), HealthUB ps →
      HealthUB (firePhase delta ps fires).players := by
  intro fires
  induction fires with
  | nil => intro ps h; exact h
  | cons fire fires ih =>
    intro ps h
    rw [firePhase]
    apply ih
    simp only [stepFireZone]
    split
    · exact h
    · rw [mapWithEvents_fst]
      intro q hq
      obtain ⟨p, hp, rfl⟩ := List.mem_map.mp hq
      exact fireDamagePlayer_health_ub delta _ hd p (h p hp)

theorem ringStep_health_lb (delta : ℚ) (s : GameState) (h : HealthLB s.players) :
    HealthLB (ringStep delta s).1.players := by
  unfold ringStep
  split
  · show HealthLB (mapWithEvents (ringStepPlayer delta
      (max 5 (80 - (7 * 60 - (s.ringTimer - delta)) * ((80 - 5) / (7 * 60))))) s.players).1
    rw [mapWithEvents_fst]
    intro q hq
    obtain ⟨p, hp, rfl⟩ := List.mem_map.mp hq
    exact ringStepPlayer_health_lb _ _ p (h p hp)
  · exact h

theorem ringStep_health_ub (delta : ℚ) (hd : 0 ≤ delta) (s : GameState)
    (h : HealthUB s.players) : HealthUB (ringStep delta s).1.players := by
  unfold ringStep
  split
  · show HealthUB (mapWithEvents (ringStepPlayer delta
      (max 5 (80 - (7 * 60 - (s.ringTimer - delta)) * ((80 - 5) / (7 * 60))))) s.players).1
    rw [mapWithEvents_fst]
    intro q hq
    obtain ⟨p, hp, rfl⟩ := List.mem_map.mp hq
    exact ringStepPlayer_health_ub _ _ hd p (h p hp)
  · exact h

theorem ringStep_projectiles (delta : ℚ) (s : GameState) :
    (ringStep delta s).1.projectiles = s.projectiles := by
  unfold ringStep
  split <;> rfl

theorem projectilesStep_players (delta : ℚ) (s : GameState) :
    (projectilesStep delta s).1.players = (projPhase delta s.players s.projectiles).players := by
  rfl

theorem fireZonesStep_players (delta : ℚ) (s : GameState) :
    (fireZonesStep delta s).1.players = (firePhase delta s.players s.fireZones).players := by
  rfl

theorem tick_players_eq (now lastTick : ℚ) (s : GameState) :
    (tick now lastTick s).1.players =
      (firePhase ((now - lastTick) / 1000)
        (projPhase ((now - lastTick) / 1000) (ringStep ((now - lastTick) / 1000) s).1.players
          (ringStep ((now - lastTick) / 1000) s).1.projectiles).players
        (ringStep ((now - lastTick) / 1000) s).1.fireZones).players := by
  rfl

theorem tick_health_lb (now lastTick : ℚ) (s : GameState) (h : HealthLB s.players) :
    HealthLB (tick now lastTick s).1.players := by
  rw [tick_players_eq]
  exact firePhase_health_lb _ _ _
    (projPhase_health_lb _ _ _ (ringStep_health_lb _ s h))

theorem tick_health_ub (now lastTick : ℚ) (s : GameState) (ht : lastTick ≤ now)
    (hdmg : DamagesNonneg s.projectiles) (h : HealthUB s.players) :
    HealthUB (tick now lastTick s).1.players := by
  have hd : 0 ≤ (now - lastTick) / 1000 := by
    have : (0:ℚ) ≤ now - lastTick := by linarith
    positivity
  rw [tick_players_eq]
  refine firePhase_health_ub _ hd _ _ (projPhase_health_ub _ _ _ ?_ (ringStep_health_ub _ hd s h))
  rw [ringStep_projectiles]
  exact hdmg

theorem handleShoot_players (sid : String) (now : ℕ) (shots : List ShotSpec) (s : GameState) :
    (handleShoot sid now shots s).1.players = s.players := by
  unfold handleShoot
  cases findPlayer s sid with
  | none => rfl
  | some player => dsimp only; split <;> rfl

theorem handleMolotov_players (sid : String) (now : ℕ) (x z r : ℚ) (s : GameState) :
    (handleMolotov sid now x z r s).1.players = s.players := by
  unfold handleMolotov
  cases findPlayer s sid with
  | none => rfl
  | some player => dsimp only; split <;> rfl

theorem handleChat_players (sid msg : String) (s : GameState) :
    (handleChat sid msg s).1.players = s.players := by
  unfold handleChat
  cases findPlayer s sid with
  | none => rfl
  | some player => rfl

/-- C9 (amended): every command handler and every tick preserves the lower
health bound 0 unconditionally; the upper bound 100 is preserved only under
the extra assumptions that client-supplied damage is nonnegative (`takeDamage`
amount, stored projectile damage values) and that the clock does not run
backwards.  The unconditional interval claimed by the spec is refuted by
`health_upper_bound_cex`: a negative `takeDamage` amount heals above 100. -/
theorem health_bounds :
    (∀ s sid k name, HealthLB s.players → HealthLB (handleConnect sid k name s).1.players) ∧
    (∀ s sid x z w, HealthLB s.players → HealthLB (handleMove sid x z w s).1.players) ∧
    (∀ s sid now shots, HealthLB s.players → HealthLB (handleShoot sid now shots s).1.players) ∧
    (∀ s sid now x z r, HealthLB s.players →
      HealthLB (handleMolotov sid now x z r s).1.players) ∧
    (∀ s sid b, HealthLB s.players → HealthLB (handleToggleFlashlight sid b s).1.players) ∧
    (∀ s sid amount fromId, HealthLB s.players →
      HealthLB (handleTakeDamage sid amount fromId s).1.players) ∧
    (∀ s sid k, HealthLB s.players → HealthLB (handleRespawn sid k s).1.players) ∧
    (∀ s sid msg, HealthLB s.players → HealthLB (handleChat sid msg s).1.players) ∧
    (∀ s sid, HealthLB s.players → HealthLB (handleDisconnect sid s).1.players) ∧
    (∀ s now lastT, HealthLB s.players → HealthLB (tick now lastT s).1.players) ∧
    (∀ s sid k name, HealthUB s.players → HealthUB (handleConnect sid k name s).1.players) ∧
    (∀ s sid x z w, HealthUB s.players → HealthUB (handleMove sid x z w s).1.players) ∧
    (∀ s sid now shots, HealthUB s.players → HealthUB (handleShoot sid now shots s).1.players) ∧
    (∀ s sid now x z r, HealthUB s.players →
      HealthUB (handleMolotov sid now x z r s).1.players) ∧
    (∀ s sid b, HealthUB s.players → HealthUB (handleToggleFlashlight sid b s).1.players) ∧
    (∀ s sid amount fromId, 0 ≤ amount → HealthUB s.players →
      HealthUB (handleTakeDamage sid amount fromId s).1.players) ∧
    (∀ s sid k, HealthUB s.players → HealthUB (handleRespawn sid k s).1.players) ∧
    (∀ s sid msg, HealthUB s.players → HealthUB (handleChat sid msg s).1.players) ∧
    (∀ s sid, HealthUB s.players → HealthUB (handleDisconnect sid s).1.players) ∧
    (∀ s now lastT, lastT ≤ now → DamagesNonneg s.projectiles → HealthUB s.players →
      HealthUB (tick now lastT s).1.players) := by
  refine ⟨?_, ?_, ?_, ?_, ?_, ?_, ?_, ?_, ?_, ?_, ?_, ?_, ?_, ?_, ?_, ?_, ?_, ?_, ?_, ?_⟩
  · intro s sid k name h
    dsimp only [handleConnect]
    split
    · exact forall_mem_setPlayer s.players sid _ h (by norm_num)
    · exact forall_mem_setPlayer s.players sid _ h (by norm_num)
  · intro s sid x z w h
    unfold handleMove
    cases findPlayer s sid with
    | none => exact h
    | some player =>
      dsimp only
      split
      · exact forall_mem_updatePlayers s.players sid _ h fun p hp => h p hp
      · exact h
  · intro s sid now shots h
    rw [handleShoot_players]; exact h
  · intro s sid now x z r h
    rw [handleMolotov_players]; exact h
  · intro s sid b h
    unfold handleToggleFlashlight
    cases findPlayer s sid with
    | none => exact h
    | some player =>
      exact forall_mem_updatePlayers s.players sid _ h fun p hp => h p hp
  · intro s sid amount fromId h
    unfold handleTakeDamage
    cases findPlayer s sid with
    | none => exact h
    | some player =>
      dsimp only
      split
      · exact forall_mem_updatePlayers s.players sid _ h fun p hp => le_max_left 0 _
      · exact h
  · intro s sid k h
    unfold handleRespawn
    cases findPlayer s sid with
    | none => exact h
    | some player =>
      dsimp only
      split
      · exact forall_mem_updatePlayers s.players sid _ h fun p hp => by norm_num
      · exact h
  · intro s sid msg h
    rw [handleChat_players]; exact h
  · intro s sid h
    intro q hq
    exact h q (List.mem_of_mem_filter hq)
  · intro s now lastT h
    exact tick_health_lb now lastT s h
  · intro s sid k name h
    dsimp only [handleConnect]
    split
    · exact forall_mem_setPlayer s.players sid _ h (by norm_num)
    · exact forall_mem_setPlayer s.players sid _ h (by norm_num)
  · intro s sid x z w h
    unfold handleMove
    cases findPlayer s sid with
    | none => exact h
    | some player =>
      dsimp only
      split
      · exact forall_mem_updatePlayers s.players sid _ h fun p hp => h p hp
      · exact h
  · intro s sid now shots h
    rw [handleShoot_players]; exact h
  · intro s sid now x z r h
    rw [handleMolotov_players]; exact h
  · intro s sid b h
    unfold handleToggleFlashlight
    cases findPlayer s sid with
    | none => exact h
    | some player =>
      exact forall_mem_updatePlayers s.players sid _ h fun p hp => h p hp
  · intro s sid amount fromId hamt h
    unfold handleTakeDamage
    cases hfind : findPlayer s sid with
    | none => exact h
    | some player =>
      dsimp only
      split
      · refine forall_mem_updatePlayers s.players sid _ h fun p hp => ?_
        have hmem : player ∈ s.players := List.mem_of_find?_eq_some hfind
        have h100 : player.health ≤ 100 := h player hmem
        exact max_le (by norm_num) (by linarith)
      · exact h
  · intro s sid k h
    unfold handleRespawn
    cases findPlayer s sid with
    | none => exact h
    | some player =>
      dsimp only
      split
      · exact forall_mem_updatePlayers s.players sid _ h fun p hp => by norm_num
      · exact h
  · intro s sid msg h
    rw [handleChat_players]; exact h
  · intro s sid h
    intro q hq
    exact h q (List.mem_of_mem_filter hq)
  · intro s now lastT ht hdmg h
    exact tick_health_ub now lastT s ht hdmg h

/-- C9 counterexample: from a reachable state (fresh player at health 100),
`takeDamage {amount: -50}` stores health 150, violating the claimed upper
bound 100 — the code clamps only at 0, never at 100. -/
theorem health_upper_bound_cex :
    findPlayer wState "a" = some wPlayerA ∧
    wPlayerA.health = 100 ∧
    findPlayer (handleTakeDamage "a" (-50) none wState).1 "a" =
      some { wPlayerA with health := 150 } ∧
    ¬HealthUB (handleTakeDamage "a" (-50) none wState).1.players := by
  refine ⟨by decide, rfl, ?_, fun hub => ?_⟩
  · norm_num [handleTakeDamage, findPlayer, updatePlayers, wState, wPlayerA]
  · have h1 : ({ wPlayerA with health := 150 } : Player) ∈
        (handleTakeDamage "a" (-50) none wState).1.players := by
      norm_num [handleTakeDamage, findPlayer, updatePlayers, wState, wPlayerA]
    have h2 := hub _ h1
    norm_num at h2

/-- C9 witness: the bounds hold on the concrete world `wState`: a legitimate
nonnegative `takeDamage` keeps 0 ≤ health, and a full tick keeps health ≤ 100
when time moves forward and no stored projectile has negative damage. -/
theorem health_bounds_witness :
    HealthLB wState.players ∧ HealthUB wState.players ∧
    HealthLB (handleTakeDamage "a" 30 none wState).1.players ∧
    HealthUB (tick 100 0 wState).1.players := by
  have hlb : HealthLB wState.players := by
    intro p hp
    simp [wState] at hp
    rcases hp with rfl | rfl <;> norm_num [wPlayerA, wPlayerDead]
  have hub : HealthUB wState.players := by
    intro p hp
    simp [wState] at hp
    rcases hp with rfl | rfl <;> norm_num [wPlayerA, wPlayerDead]
  have hdmg : DamagesNonneg wState.projectiles := by
    intro pr hpr
    simp [wState] at hpr
  exact ⟨hlb, hub, health_bounds.2.2.2.2.2.1 wState "a" 30 none hlb,
    health_bounds.2.2.2.2.2.2.2.2.2.2.2.2.2.2.2.2.2.2.2 wState 100 0 (by norm_num) hdmg hub⟩

theorem tick_ringRadius_eq (now lastT : ℚ) (s : GameState) :
    (tick now lastT s).1.ringRadius = (ringStep ((now - lastT) / 1000) s).1.ringRadius := rfl

theorem tick_ringTimer_eq (now lastT : ℚ) (s : GameState) :
    (tick now lastT s).1.ringTimer = (ringStep ((now - lastT) / 1000) s).1.ringTimer := rfl

theorem tick_gameStarted_eq (now lastT : ℚ) (s : GameState) :
    (tick now lastT s).1.gameStarted = (ringStep ((now - lastT) / 1000) s).1.gameStarted := rfl

theorem ringStep_gameStarted (delta : ℚ) (s : GameState) :
    (ringStep delta s).1.gameStarted = s.gameStarted := by
  unfold ringStep
  split <;> rfl

/-- Characterization of the ring block: with the guard satisfied the timer
decreases by `delta` and the radius is recomputed by the shrink formula;
otherwise both are unchanged. -/
theorem ringStep_ring_spec (delta : ℚ) (s : GameState) :
    (s.gameStarted = true ∧ s.ringRadius > 5 →
      (ringStep delta s).1.ringTimer = s.ringTimer - delta ∧
      (ringStep delta s).1.ringRadius =
        max 5 (80 - (7 * 60 - (s.ringTimer - delta)) * ((80 - 5) / (7 * 60)))) ∧
    (¬(s.gameStarted = true ∧ s.ringRadius > 5) →
      (ringStep delta s).1.ringTimer = s.ringTimer ∧
      (ringStep delta s).1.ringRadius = s.ringRadius) := by
  constructor
  · intro h
    unfold ringStep
    rw [if_pos h]
    exact ⟨rfl, rfl⟩
  · intro h
    unfold ringStep
    rw [if_neg h]
    exact ⟨rfl, rfl⟩

/-- One tick preserves `RingInv`, moving the reference `lastT` to `now`. -/
theorem tick_ring_inv (now lastT t0 : ℚ) (s : GameState) (h : RingInv s lastT t0)
    (ht : lastT ≤ now) : RingInv (tick now lastT s).1 now t0 := by
  obtain ⟨hstart, hform, hdisj⟩ := h
  set delta := (now - lastT) / 1000 with hdelta
  refine ⟨by rw [tick_gameStarted_eq, ringStep_gameStarted]; exact hstart, ?_, ?_⟩
  · by_cases hg : s.gameStarted = true ∧ s.ringRadius > 5
    · rw [tick_ringRadius_eq, tick_ringTimer_eq, ((ringStep_ring_spec delta s).1 hg).1,
        ((ringStep_ring_spec delta s).1 hg).2]
    · rw [tick_ringRadius_eq, tick_ringTimer_eq, ((ringStep_ring_spec delta s).2 hg).1,
        ((ringStep_ring_spec delta s).2 hg).2]
      exact hform
  · by_cases hg : s.gameStarted = true ∧ s.ringRadius > 5
    · rcases hdisj with h5 | htimer
      · exact absurd hg.2 (by rw [h5]; norm_num)
      · right
        rw [tick_ringTimer_eq, ((ringStep_ring_spec delta s).1 hg).1, htimer, hdelta]
        ring
    · left
      have hle : s.ringRadius ≤ 5 := not_lt.mp fun hgt => hg ⟨hstart, hgt⟩
      have hge : 5 ≤ s.ringRadius := by rw [hform]; exact le_max_left _ _
      rw [tick_ringRadius_eq, ((ringStep_ring_spec delta s).2 hg).2]
      linarith

/-- A tick never increases the radius, given the shrink-formula invariant. -/
theorem tick_ringRadius_le (now lastT : ℚ) (s : GameState)
    (hform : s.ringRadius = max 5 (80 - (7 * 60 - s.ringTimer) * ((80 - 5) / (7 * 60))))
    (ht : lastT ≤ now) : (tick now lastT s).1.ringRadius ≤ s.ringRadius := by
  set delta := (now - lastT) / 1000 with hdelta
  have hd : 0 ≤ delta := by
    rw [hdelta]
    have : (0:ℚ) ≤ now - lastT := by linarith
    positivity
  by_cases hg : s.gameStarted = true ∧ s.ringRadius > 5
  · rw [tick_ringRadius_eq, ((ringStep_ring_spec delta s).1 hg).2, hform]
    apply max_le_max le_rfl
    have : 0 ≤ delta * ((80 - 5) / (7 * 60) : ℚ) := by positivity
    nlinarith
  · rw [tick_ringRadius_eq, ((ringStep_ring_spec delta s).2 hg).2]

/-- `RingInv` holds along every chain-ordered run of ticks. -/
theorem runTicks_ring_inv :
    ∀ (ts : List ℚ) (lastT t0 : ℚ) (s : GameState), RingInv s lastT t0 →
      List.Chain (· ≤ ·) lastT ts → RingInv (runTicks ts lastT s) (ts.getLastD lastT) t0 := by
  intro ts
  induction ts with
  | nil => intro lastT t0 s h _; exact h
  | cons t ts ih =>
    intro lastT t0 s h hchain
    rw [List.chain_cons] at hchain
    rw [runTicks, List.getLastD_cons]
    exact ih t t0 (tick t lastT s).1 (tick_ring_inv t lastT t0 s h hchain.1) hchain.2

theorem chain_snoc_elim {l : List ℚ} {a b : ℚ} (h : List.Chain (· ≤ ·) a (l ++ [b])) :
    List.Chain (· ≤ ·) a l ∧ l.getLastD a ≤ b := by
  induction l generalizing a with
  | nil => simpa using h
  | cons c l ih =>
    rw [List.cons_append, List.chain_cons] at h
    obtain ⟨hac, h2⟩ := h
    obtain ⟨h3, h4⟩ := ih h2
    refine ⟨List.chain_cons.mpr ⟨hac, h3⟩, ?_⟩
    rw [List.getLastD_cons]
    exact h4

/-- C4: from the state at the moment the game starts (radius 80, timer
7·60 s, started), along any run of ticks with nondecreasing timestamps, the
safe-zone radius starts at 80 (also in `initialGameState`), stays ≥ 5, never
increases at the next tick, and equals exactly 5 once the elapsed wall-clock
time since the game started reaches 7·60 s = 420000 ms. -/
theorem ring_radius_monotone_floor (s0 : GameState) (h80 : s0.ringRadius = 80)
    (h420 : s0.ringTimer = 7 * 60) (hstart : s0.gameStarted = true)
    (ts : List ℚ) (t0 now : ℚ) (hchain : List.Chain (· ≤ ·) t0 (ts ++ [now])) :
    initialGameState.ringRadius = 80 ∧
    s0.ringRadius = 80 ∧
    5 ≤ (runTicks ts t0 s0).ringRadius ∧
    (tick now (ts.getLastD t0) (runTicks ts t0 s0)).1.ringRadius ≤
      (runTicks ts t0 s0).ringRadius ∧
    (7 * 60 * 1000 ≤ now - t0 →
      (tick now (ts.getLastD t0) (runTicks ts t0 s0)).1.ringRadius = 5) := by
  obtain ⟨hchain1, hlast⟩ := chain_snoc_elim hchain
  have hinv0 : RingInv s0 t0 t0 := by
    refine ⟨hstart, ?_, Or.inr ?_⟩
    · rw [h80, h420]
      norm_num
    · rw [h420]
      norm_num
  have hinv := runTicks_ring_inv ts t0 t0 s0 hinv0 hchain1
  obtain ⟨hst, hform, hdisj⟩ := hinv
  set S := runTicks ts t0 s0
  set lt := ts.getLastD t0
  refine ⟨rfl, h80, ?_, tick_ringRadius_le now lt S hform hlast, fun helapsed => ?_⟩
  · rw [hform]; exact le_max_left _ _
  · set delta := (now - lt) / 1000 with hdelta
    by_cases hg : S.gameStarted = true ∧ S.ringRadius > 5
    · rcases hdisj with h5 | htimer
      · exact absurd hg.2 (by rw [h5]; norm_num)
      · rw [tick_ringRadius_eq, ((ringStep_ring_spec delta S).1 hg).2]
        have hx : 80 - (7 * 60 - (S.ringTimer - delta)) * ((80 - 5) / (7 * 60) : ℚ) ≤ 5 := by
          rw [htimer, hdelta]
          have h1 : 7 * 60 - (7 * 60 - (lt - t0) / 1000 - (now - lt) / 1000) =
              (now - t0) / 1000 := by ring
          rw [h1]
          have h2 : (420000 : ℚ) / 1000 ≤ (now - t0) / 1000 := by
            apply div_le_div_of_nonneg_right ?_ ?_
            · linarith
            · norm_num
          nlinarith [h2]
        exact max_eq_left hx
    · have hle : S.ringRadius ≤ 5 := not_lt.mp fun hgt => hg ⟨hst, hgt⟩
      have hge : 5 ≤ S.ringRadius := by rw [hform]; exact le_max_left _ _
      rw [tick_ringRadius_eq, ((ringStep_ring_spec delta S).2 hg).2]
      linarith

/-- C4 witness: a concrete two-tick run reaching 420 s lands the radius
exactly on the floor 5. -/
theorem ring_radius_monotone_floor_witness :
    5 ≤ (runTicks [10000] 0 { initialGameState with gameStarted := true }).ringRadius ∧
    (tick 420000 10000
      (runTicks [10000] 0 { initialGameState with gameStarted := true })).1.ringRadius = 5 := by
  have h := ring_radius_monotone_floor { initialGameState with gameStarted := true }
    rfl rfl rfl [10000] 0 420000 (by norm_num [List.chain_cons])
  exact ⟨h.2.2.1, h.2.2.2.2 (by norm_num)⟩

theorem ringStep_fireZones (delta : ℚ) (s : GameState) :
    (ringStep delta s).1.fireZones = s.fireZones := by
  unfold ringStep
  split <;> rfl

theorem projectilesStep_of_empty (delta : ℚ) (s : GameState) (h : s.projectiles = []) :
    projectilesStep delta s = (s, []) := by
  obtain ⟨ps, prs, fs, rr, rt, gs⟩ := s
  simp only at h
  subst h
  rfl

theorem fireZonesStep_of_empty (delta : ℚ) (s : GameState) (h : s.fireZones = []) :
    fireZonesStep delta s = (s, []) := by
  obtain ⟨ps, prs, fs, rr, rt, gs⟩ := s
  simp only at h
  subst h
  rfl

/-- With no projectiles and no fire zones, a tick only runs the ring block. -/
theorem tick_players_of_empty (now lastT : ℚ) (s : GameState) (hproj : s.projectiles = [])
    (hfire : s.fireZones = []) :
    (tick now lastT s).1.players = (ringStep ((now - lastT) / 1000) s).1.players := by
  have h1 : (ringStep ((now - lastT) / 1000) s).1.projectiles = [] := by
    rw [ringStep_projectiles]; exact hproj
  have h2 : (ringStep ((now - lastT) / 1000) s).1.fireZones = [] := by
    rw [ringStep_fireZones]; exact hfire
  have e2 := projectilesStep_of_empty ((now - lastT) / 1000) _ h1
  have e3 := fireZonesStep_of_empty ((now - lastT) / 1000) _ h2
  show (fireZonesStep ((now - lastT) / 1000)
    (projectilesStep ((now - lastT) / 1000)
      (ringStep ((now - lastT) / 1000) s).1).1).1.players = _
  simp only [e2, e3]

/-- With no projectiles and no fire zones, the tick's events are the ring
events followed by the optional once-per-second `ringUpdate`. -/
theorem tick_events_of_empty (now lastT : ℚ) (s : GameState) (hproj : s.projectiles = [])
    (hfire : s.fireZones = []) :
    (tick now lastT s).2 =
      (ringStep ((now - lastT) / 1000) s).2 ++
        ringUpdateEvents now (ringStep ((now - lastT) / 1000) s).1 := by
  have h1 : (ringStep ((now - lastT) / 1000) s).1.projectiles = [] := by
    rw [ringStep_projectiles]; exact hproj
  have h2 : (ringStep ((now - lastT) / 1000) s).1.fireZones = [] := by
    rw [ringStep_fireZones]; exact hfire
  have e2 := projectilesStep_of_empty ((now - lastT) / 1000) _ h1
  have e3 := fireZonesStep_of_empty ((now - lastT) / 1000) _ h2
  show (ringStep ((now - lastT) / 1000) s).2 ++
      ringUpdateEvents now (ringStep ((now - lastT) / 1000) s).1 ++
      (projectilesStep ((now - lastT) / 1000) (ringStep ((now - lastT) / 1000) s).1).2 ++
      (fireZonesStep ((now - lastT) / 1000)
        (projectilesStep ((now - lastT) / 1000) (ringStep ((now - lastT) / 1000) s).1).1).2 = _
  simp only [e2, e3]
  simp

/-- Under the ring guard, the ring block maps `ringStepPlayer` over the
players with the freshly shrunk radius, and its events are those of that map.
-/
theorem ringStep_players_pos (delta : ℚ) (s : GameState)
    (hg : s.gameStarted = true ∧ s.ringRadius > 5) :
    (ringStep delta s).1.players =
      (mapWithEvents (ringStepPlayer delta
        (max 5 (80 - (7 * 60 - (s.ringTimer - delta)) * ((80 - 5) / (7 * 60))))) s.players).1 ∧
    (ringStep delta s).2 =
      (mapWithEvents (ringStepPlayer delta
        (max 5 (80 - (7 * 60 - (s.ringTimer - delta)) * ((80 - 5) / (7 * 60))))) s.players).2 := by
  unfold ringStep
  rw [if_pos hg]
  exact ⟨rfl, rfl⟩

/-- A living player outside the radius ends the ring body with health clamped
at `max 0 (health - 5·delta)`. -/
theorem ringStepPlayer_fst_outside (delta r : ℚ) (p : Player) (halive : p.health > 0)
    (houtside : (p.x - 0) * (p.x - 0) + (p.z - 0) * (p.z - 0) > r * r) :
    (ringStepPlayer delta r p).1 = { p with health := max 0 (p.health - 5 * delta) } := by
  simp only [ringStepPlayer]
  rw [if_pos halive, if_pos houtside]
  by_cases hd : p.health - 5 * delta ≤ 0
  · rw [if_pos hd, max_eq_left hd]
  · rw [if_neg hd, max_eq_right (le_of_lt (lt_of_not_le hd))]

theorem ringStepPlayer_events_other (delta r : ℚ) (q : Player) (pid : String)
    (hq : q.id ≠ pid) (killer : Option String) :
    ((ringStepPlayer delta r q).2.countP (isPlayerDiedBy pid killer)) = 0 ∧
    ((ringStepPlayer delta r q).2.countP (isRingDamageOf pid)) = 0 := by
  have hbeq : (q.id == pid) = false := by simp [hq]
  simp only [ringStepPlayer]
  split_ifs <;> simp [isPlayerDiedBy, isRingDamageOf, hbeq]

theorem ringStepPlayer_events_self (delta r : ℚ) (p : Player) (halive : p.health > 0)
    (houtside : (p.x - 0) * (p.x - 0) + (p.z - 0) * (p.z - 0) > r * r) :
    ((ringStepPlayer delta r p).2.countP (isPlayerDiedBy p.id (some "ring")) =
      if p.health - 5 * delta ≤ 0 then 1 else 0) ∧
    ((ringStepPlayer delta r p).2.countP (isRingDamageOf p.id) =
      if p.health - 5 * delta ≤ 0 then 0 else 1) := by
  simp only [ringStepPlayer]
  rw [if_pos halive, if_pos houtside]
  by_cases hd : p.health - 5 * delta ≤ 0
  · rw [if_pos hd]
    simp [isPlayerDiedBy, isRingDamageOf, hd]
  · rw [if_neg hd]
    simp [isPlayerDiedBy, isRingDamageOf, hd]

theorem ringUpdateEvents_counts (now : ℚ) (s : GameState) (pid : String)
    (killer : Option String) :
    (ringUpdateEvents now s).countP (isPlayerDiedBy pid killer) = 0 ∧
    (ringUpdateEvents now s).countP (isRingDamageOf pid) = 0 := by
  unfold ringUpdateEvents
  split <;> simp [isPlayerDiedBy, isRingDamageOf]

theorem sum_single_decomp (g : Player → ℕ) (l₁ l₂ : List Player) (p : Player)
    (h1 : ∀ q ∈ l₁, g q = 0) (h2 : ∀ q ∈ l₂, g q = 0) :
    ((l₁ ++ p :: l₂).map g).sum = g p := by
  rw [List.map_append, List.sum_append, List.map_cons, List.sum_cons]
  rw [List.sum_eq_zero (fun n hn => by
      obtain ⟨q, hq, rfl⟩ := List.mem_map.mp hn; exact h1 q hq),
    List.sum_eq_zero (fun n hn => by
      obtain ⟨q, hq, rfl⟩ := List.mem_map.mp hn; exact h2 q hq)]
  simp

/-- Count of ring events over the whole player map, isolated to one player
whose id is unique in the map. -/
theorem mapWithEvents_countP_decomp (f : Player → Player × List Event) (pred : Event → Bool)
    (l₁ l₂ : List Player) (p : Player)
    (h1 : ∀ q ∈ l₁, ((f q).2.countP pred) = 0) (h2 : ∀ q ∈ l₂, ((f q).2.countP pred) = 0) :
    ((mapWithEvents f (l₁ ++ p :: l₂)).2.countP pred) = (f p).2.countP pred := by
  rw [mapWithEvents_snd, List.countP_flatten, List.map_map]
  exact sum_single_decomp _ l₁ l₂ p h1 h2

/-- C1 (amended): on a started tick whose pre-tick radius exceeds the floor 5
(so the ring block's guard passes), every living player outside the freshly
shrunk radius loses exactly 5·delta health, clamped at 0, with exactly one
`playerDied` attributed to "ring" when the health reaches 0 and exactly one
targeted `ringDamage` notification otherwise.  The original claim also
demanded this at the floor radius 5, where the code skips the whole ring
block (see the counterexample). -/
theorem ring_damage_per_tick (s : GameState) (now lastT : ℚ) (l₁ l₂ : List Player) (p : Player)
    (hplayers : s.players = l₁ ++ p :: l₂)
    (hids : ∀ q ∈ l₁ ++ l₂, q.id ≠ p.id)
    (hstart : s.gameStarted = true)
    (hrad : s.ringRadius > 5)
    (hproj : s.projectiles = [])
    (hfire : s.fireZones = [])
    (halive : p.health > 0)
    (houtside : (p.x - 0) * (p.x - 0) + (p.z - 0) * (p.z - 0) >
      (max 5 (80 - (7 * 60 - (s.ringTimer - (now - lastT) / 1000)) * ((80 - 5) / (7 * 60)))) *
      (max 5 (80 - (7 * 60 - (s.ringTimer - (now - lastT) / 1000)) * ((80 - 5) / (7 * 60))))) :
    findPlayer (tick now lastT s).1 p.id =
      some { p with health := max 0 (p.health - 5 * ((now - lastT) / 1000)) } ∧
    ((tick now lastT s).2.countP (isPlayerDiedBy p.id (some "ring")) =
      if p.health - 5 * ((now - lastT) / 1000) ≤ 0 then 1 else 0) ∧
    ((tick now lastT s).2.countP (isRingDamageOf p.id) =
      if p.health - 5 * ((now - lastT) / 1000) ≤ 0 then 0 else 1) := by
  have hg : s.gameStarted = true ∧ s.ringRadius > 5 := ⟨hstart, hrad⟩
  have hps := (ringStep_players_pos ((now - lastT) / 1000) s hg).1
  have hev := (ringStep_players_pos ((now - lastT) / 1000) s hg).2
  have h1 : ∀ q ∈ l₁, q.id ≠ p.id := fun q hq => hids q (List.mem_append_left _ hq)
  have h2 : ∀ q ∈ l₂, q.id ≠ p.id := fun q hq => hids q (List.mem_append_right _ hq)
  refine ⟨?_, ?_, ?_⟩
  · unfold findPlayer
    rw [tick_players_of_empty now lastT s hproj hfire, hps, mapWithEvents_fst, hplayers,
      find?_map_decomp _ (fun q => ringStepPlayer_id _ _ q) l₁ l₂ p h1,
      ringStepPlayer_fst_outside _ _ p halive houtside]
  · rw [tick_events_of_empty now lastT s hproj hfire, List.countP_append,
      (ringUpdateEvents_counts now _ p.id (some "ring")).1, hev, hplayers,
      mapWithEvents_countP_decomp _ _ l₁ l₂ p
        (fun q hq => (ringStepPlayer_events_other _ _ q p.id (h1 q hq) (some "ring")).1)
        (fun q hq => (ringStepPlayer_events_other _ _ q p.id (h2 q hq) (some "ring")).1),
      (ringStepPlayer_events_self _ _ p halive houtside).1]
    simp
  · rw [tick_events_of_empty now lastT s hproj hfire, List.countP_append,
      (ringUpdateEvents_counts now _ p.id (some "ring")).2, hev, hplayers,
      mapWithEvents_countP_decomp _ _ l₁ l₂ p
        (fun q hq => (ringStepPlayer_events_other _ _ q p.id (h1 q hq) (some "ring")).2)
        (fun q hq => (ringStepPlayer_events_other _ _ q p.id (h2 q hq) (some "ring")).2),
      (ringStepPlayer_events_self _ _ p halive houtside).2]
    simp

/-- C1 counterexample: once the stored radius has reached the floor 5, a
started-game tick leaves a living player who is far outside the ring entirely
untouched and emits nothing — the claim requires a 5·delta subtraction at the
floor radius as well. -/
theorem ring_damage_at_floor_cex :
    cexRingState.gameStarted = true ∧
    cexRingState.ringRadius = 5 ∧
    cexRingPlayer.health = 100 ∧
    cexRingPlayer.x * cexRingPlayer.x + cexRingPlayer.z * cexRingPlayer.z >
      cexRingState.ringRadius * cexRingState.ringRadius ∧
    (1500 - 500 : ℚ) / 1000 = 1 ∧
    tick 1500 500 cexRingState = (cexRingState, []) := by
  refine ⟨rfl, rfl, rfl, by norm_num [cexRingPlayer, cexRingState], by norm_num, ?_⟩
  have h1 : ringStep ((1500 - 500 : ℚ) / 1000) cexRingState = (cexRingState, []) := by
    unfold ringStep
    rw [if_neg]
    intro hg
    exact absurd hg.2 (by norm_num [cexRingState])
  have hfl : ⌊(1500 : ℚ) / 1000⌋ = ⌊((1500 : ℚ) - TICK_RATE) / 1000⌋ := by
    rw [show ((1500 : ℚ) - TICK_RATE) / 1000 = 89 / 60 by norm_num [TICK_RATE]]
    rw [show ((1500 : ℚ) / 1000) = 3 / 2 by norm_num]
    rw [show ⌊(89 : ℚ) / 60⌋ = 1 by rw [Int.floor_eq_iff] <;> norm_num]
    rw [show ⌊(3 : ℚ) / 2⌋ = 1 by rw [Int.floor_eq_iff] <;> norm_num]
  have h2 : ringUpdateEvents 1500 cexRingState = [] := by
    unfold ringUpdateEvents
    rw [if_neg (by simp [hfl])]
  have e2 := projectilesStep_of_empty ((1500 - 500 : ℚ) / 1000) cexRingState rfl
  have e3 := fireZonesStep_of_empty ((1500 - 500 : ℚ) / 1000) cexRingState rfl
  show ((fireZonesStep _ (projectilesStep _ (ringStep _ cexRingState).1).1).1,
    (ringStep _ cexRingState).2 ++ ringUpdateEvents 1500 (ringStep _ cexRingState).1 ++
      (projectilesStep _ (ringStep _ cexRingState).1).2 ++
      (fireZonesStep _ (projectilesStep _ (ringStep _ cexRingState).1).1).2) = _
  simp only [h1, e2, e3, h2]
  simp

/-- C1 witness: one living player at (10,10) outside a radius-6 ring, one
tick of 1 s — health drops by exactly 5·1 (clamped form) and exactly one
targeted `ringDamage` notification is emitted. -/
theorem ring_damage_per_tick_witness :
    findPlayer (tick 420000 419000 wRingState).1 "a" =
      some { cexRingPlayer with
             health := max 0 (cexRingPlayer.health - 5 * ((420000 - 419000) / 1000)) } ∧
    (tick 420000 419000 wRingState).2.countP (isRingDamageOf "a") = 1 := by
  have h := ring_damage_per_tick wRingState 420000 419000 [] [] cexRingPlayer rfl (by simp)
    rfl (by norm_num [wRingState]) rfl rfl (by norm_num [cexRingPlayer])
    (by norm_num [cexRingPlayer, wRingState])
  refine ⟨h.1, ?_⟩
  show List.countP (isRingDamageOf cexRingPlayer.id) (tick 420000 419000 wRingState).2 = 1
  rw [h.2.2, if_neg (by norm_num [cexRingPlayer])]

theorem ringStep_of_not (delta : ℚ) (s : GameState)
    (h : ¬(s.gameStarted = true ∧ s.ringRadius > 5)) : ringStep delta s = (s, []) := by
  unfold ringStep
  rw [if_neg h]

theorem find?_decomp (l₁ l₂ : List Player) (q : Player) (pid : String) (hq : q.id = pid)
    (h1 : ∀ r ∈ l₁, r.id ≠ pid) :
    (l₁ ++ q :: l₂).find? (fun r => r.id == pid) = some q := by
  induction l₁ with
  | nil => simp [List.find?, hq]
  | cons r l₁ ih =>
    have hr : ¬((r.id == pid) = true) := by simp [h1 r (List.mem_cons_self r l₁)]
    rw [List.cons_append, List.find?_cons_of_neg (p := fun r : Player => r.id == pid) _ hr]
    exact ih fun r' hr' => h1 r' (List.mem_cons_of_mem r hr')

theorem ringUpdateEvents_countP_fire (now : ℚ) (s : GameState) (pid : String) :
    (ringUpdateEvents now s).countP (isFireDamageOf pid) = 0 := by
  unfold ringUpdateEvents
  split <;> simp [isFireDamageOf]

/-- With the game not started and no projectiles, a tick reduces to the
fire-zone block (plus the optional `ringUpdate`). -/
theorem tick_fire_only (now lastT : ℚ) (s : GameState) (hns : s.gameStarted = false)
    (hproj : s.projectiles = []) :
    (tick now lastT s).1 = (fireZonesStep ((now - lastT) / 1000) s).1 ∧
    (tick now lastT s).2 =
      ringUpdateEvents now s ++ (fireZonesStep ((now - lastT) / 1000) s).2 := by
  have h1 : ringStep ((now - lastT) / 1000) s = (s, []) := by
    refine ringStep_of_not _ _ fun hg => ?_
    rw [hns] at hg
    exact absurd hg.1 (by simp)
  have e2 := projectilesStep_of_empty ((now - lastT) / 1000) s hproj
  constructor
  · show (fireZonesStep ((now - lastT) / 1000)
      (projectilesStep ((now - lastT) / 1000) (ringStep ((now - lastT) / 1000) s).1).1).1 = _
    simp only [h1, e2]
  · show (ringStep ((now - lastT) / 1000) s).2 ++
      ringUpdateEvents now (ringStep ((now - lastT) / 1000) s).1 ++
      (projectilesStep ((now - lastT) / 1000) (ringStep ((now - lastT) / 1000) s).1).2 ++
      (fireZonesStep ((now - lastT) / 1000)
        (projectilesStep ((now - lastT) / 1000) (ringStep ((now - lastT) / 1000) s).1).1).2 = _
    simp only [h1, e2]
    simp

theorem fireZonesStep_countP_fire (delta : ℚ) (s : GameState) (pid : String) :
    (fireZonesStep delta s).2.countP (isFireDamageOf pid) =
      (firePhase delta s.players s.fireZones).events.countP (isFireDamageOf pid) := by
  show ((firePhase delta s.players s.fireZones).events ++
    if (firePhase delta s.players s.fireZones).toRemove ≠ [] then
      [Event.fireZonesRemoved (firePhase delta s.players s.fireZones).toRemove]
    else []).countP (isFireDamageOf pid) = _
  rw [List.countP_append]
  split <;> simp [isFireDamageOf]

theorem firePhase_cons_players (delta : ℚ) (ps : List Player) (z : FireZone)
    (zs : List FireZone) :
    (firePhase delta ps (z :: zs)).players =
      (firePhase delta (stepFireZone delta ps z).players zs).players := rfl

theorem firePhase_cons_events (delta : ℚ) (ps : List Player) (z : FireZone)
    (zs : List FireZone) :
    (firePhase delta ps (z :: zs)).events =
      (stepFireZone delta ps z).events ++
        (firePhase delta (stepFireZone delta ps z).players zs).events := rfl

/-- An active fire zone damages every player and expires nothing. -/
theorem stepFireZone_active (delta : ℚ) (ps : List Player) (z : FireZone)
    (hz : 0 < z.timeLeft - TICK_RATE) :
    (stepFireZone delta ps z).players =
      (mapWithEvents (fireDamagePlayer delta { z with timeLeft := z.timeLeft - TICK_RATE }) ps).1 ∧
    (stepFireZone delta ps z).events =
      (mapWithEvents (fireDamagePlayer delta { z with timeLeft := z.timeLeft - TICK_RATE }) ps).2 := by
  simp only [stepFireZone]
  rw [if_neg (show ¬(z.timeLeft - TICK_RATE ≤ 0) by linarith)]
  exact ⟨rfl, rfl⟩

theorem fireDamagePlayer_events_other (delta : ℚ) (fire : FireZone) (q : Player) (pid : String)
    (hq : q.id ≠ pid) : (fireDamagePlayer delta fire q).2.countP (isFireDamageOf pid) = 0 := by
  have hbeq : (q.id == pid) = false := by simp [hq]
  simp only [fireDamagePlayer]
  split_ifs <;> simp [isFireDamageOf, hbeq]

/-- A living player inside an active zone who survives the application: one
`fireDamage` notification and exactly `15·delta` subtracted. -/
theorem fireDamagePlayer_self_nonfatal (delta : ℚ) (fire : FireZone) (p : Player)
    (halive : p.health > 0)
    (hin : 0 < fire.radius ∧
      (fire.x - p.x) * (fire.x - p.x) + (fire.z - p.z) * (fire.z - p.z) <
        fire.radius * fire.radius)
    (hnf : ¬(p.health - 15 * delta ≤ 0)) :
    (fireDamagePlayer delta fire p).1 = { p with health := p.health - 15 * delta } ∧
    (fireDamagePlayer delta fire p).2.countP (isFireDamageOf p.id) = 1 := by
  simp only [fireDamagePlayer]
  rw [if_pos halive, if_pos hin, if_neg hnf]
  simp [isFireDamageOf]

/-- Damage from overlapping active fire zones accumulates: one application of
`15·delta` per containing zone, in zone order. -/
theorem firePhase_cumulative (delta : ℚ) (pid : String) :
    ∀ (zs : List FireZone) (l₁ l₂ : List Player) (p : Player),
      p.id = pid →
      (∀ q ∈ l₁ ++ l₂, q.id ≠ pid) →
      (∀ z ∈ zs, 0 < z.timeLeft - TICK_RATE ∧ 0 < z.radius ∧
        (z.x - p.x) * (z.x - p.x) + (z.z - p.z) * (z.z - p.z) < z.radius * z.radius) →
      0 ≤ delta →
      0 < p.health - (zs.length : ℚ) * (15 * delta) →
      ∃ l₁' l₂',
        (firePhase delta (l₁ ++ p :: l₂) zs).players =
          l₁' ++ { p with health := p.health - (zs.length : ℚ) * (15 * delta) } :: l₂' ∧
        (∀ q ∈ l₁' ++ l₂', q.id ≠ pid) ∧
        (firePhase delta (l₁ ++ p :: l₂) zs).events.countP (isFireDamageOf pid) = zs.length := by
  intro zs
  induction zs with
  | nil =>
    intro l₁ l₂ p hpid hids _ _ _
    refine ⟨l₁, l₂, ?_, hids, rfl⟩
    show l₁ ++ p :: l₂ = _
    rw [show p.health - (([] : List FireZone).length : ℚ) * (15 * delta) = p.health by
      norm_num]
  | cons z rest ih =>
    intro l₁ l₂ p hpid hids hz hd hsurv
    obtain ⟨hzt, hzr, hzd⟩ := hz z (List.mem_cons_self z rest)
    have hk : ((z :: rest).length : ℚ) * (15 * delta) =
        (rest.length : ℚ) * (15 * delta) + 15 * delta := by
      push_cast [List.length_cons]
      ring
    have hstep : 0 ≤ (rest.length : ℚ) * (15 * delta) := by positivity
    have halive : 0 < p.health := by
      rw [hk] at hsurv
      nlinarith
    have hmid : 0 < p.health - 15 * delta - (rest.length : ℚ) * (15 * delta) := by
      rw [hk] at hsurv
      linarith
    have hnf : ¬(p.health - 15 * delta ≤ 0) := by push_neg; nlinarith
    set z' : FireZone := { z with timeLeft := z.timeLeft - TICK_RATE } with hz'
    have hactive := stepFireZone_active delta (l₁ ++ p :: l₂) z hzt
    have hin : 0 < z'.radius ∧
        (z'.x - p.x) * (z'.x - p.x) + (z'.z - p.z) * (z'.z - p.z) <
          z'.radius * z'.radius := ⟨hzr, hzd⟩
    have hfp := fireDamagePlayer_self_nonfatal delta z' p halive hin hnf
    have hmapped : (stepFireZone delta (l₁ ++ p :: l₂) z).players =
        (l₁.map fun q => (fireDamagePlayer delta z' q).1) ++
          ({ p with health := p.health - 15 * delta } ::
            l₂.map fun q => (fireDamagePlayer delta z' q).1) := by
      rw [hactive.1, mapWithEvents_fst, List.map_append, List.map_cons, hfp.1]
    obtain ⟨l₁', l₂', hP, hI, hC⟩ := ih
      (l₁.map fun q => (fireDamagePlayer delta z' q).1)
      (l₂.map fun q => (fireDamagePlayer delta z' q).1)
      { p with health := p.health - 15 * delta }
      hpid
      (by
        intro q hq
        rcases List.mem_append.mp hq with hq | hq <;>
          obtain ⟨r, hr, rfl⟩ := List.mem_map.mp hq
        · rw [fireDamagePlayer_id]
          exact hids r (List.mem_append_left _ hr)
        · rw [fireDamagePlayer_id]
          exact hids r (List.mem_append_right _ hr))
      (fun w hw => hz w (List.mem_cons_of_mem z hw))
      hd
      hmid
    refine ⟨l₁', l₂', ?_, hI, ?_⟩
    · rw [firePhase_cons_players, hmapped, hP]
      show l₁' ++ ({ p with health := p.health - 15 * delta -
        (rest.length : ℚ) * (15 * delta) } : Player) :: l₂' = _
      rw [show p.health - 15 * delta - (rest.length : ℚ) * (15 * delta) =
        p.health - ((z :: rest).length : ℚ) * (15 * delta) by rw [hk]; ring]
    · rw [firePhase_cons_events, List.countP_append, hmapped, hC, hactive.2,
        mapWithEvents_countP_decomp _ _ l₁ l₂ p
          (fun q hq => fireDamagePlayer_events_other delta z' q pid
            (hids q (List.mem_append_left _ hq)))
          (fun q hq => fireDamagePlayer_events_other delta z' q pid
            (hids q (List.mem_append_right _ hq)))]
      rw [hpid] at hfp
      rw [hfp.2, List.length_cons]
      omega

/-- C2 (amended): for a living player lying inside `k` simultaneously active
fire zones who survives all of them, the tick subtracts `k · 15 · delta` — one
application of `15·delta` per containing zone, cumulative, with one targeted
`fireDamage` notification per zone — not a single application as the claim
(and the spec) state. -/
theorem fire_damage_cumulative (s : GameState) (now lastT : ℚ) (l₁ l₂ : List Player)
    (p : Player)
    (hplayers : s.players = l₁ ++ p :: l₂)
    (hids : ∀ q ∈ l₁ ++ l₂, q.id ≠ p.id)
    (hns : s.gameStarted = false)
    (hproj : s.projectiles = [])
    (hzones : ∀ z ∈ s.fireZones, 0 < z.timeLeft - TICK_RATE ∧ 0 < z.radius ∧
      (z.x - p.x) * (z.x - p.x) + (z.z - p.z) * (z.z - p.z) < z.radius * z.radius)
    (ht : lastT ≤ now)
    (hsurv : 0 < p.health - (s.fireZones.length : ℚ) * (15 * ((now - lastT) / 1000))) :
    findPlayer (tick now lastT s).1 p.id =
      some { p with health :=
        p.health - (s.fireZones.length : ℚ) * (15 * ((now - lastT) / 1000)) } ∧
    (tick now lastT s).2.countP (isFireDamageOf p.id) = s.fireZones.length := by
  have hd : 0 ≤ (now - lastT) / 1000 := by
    have : (0:ℚ) ≤ now - lastT := by linarith
    positivity
  obtain ⟨l₁', l₂', hP, hI, hC⟩ := firePhase_cumulative ((now - lastT) / 1000) p.id
    s.fireZones l₁ l₂ p rfl hids hzones hd hsurv
  obtain ⟨ht1, ht2⟩ := tick_fire_only now lastT s hns hproj
  constructor
  · unfold findPlayer
    rw [ht1, fireZonesStep_players, hplayers, hP]
    exact find?_decomp l₁' l₂' _ p.id rfl fun r hr => hI r (List.mem_append_left _ hr)
  · rw [ht2, List.countP_append, ringUpdateEvents_countP_fire,
      fireZonesStep_countP_fire, hplayers, hC]
    simp

/-- C2 counterexample: a player at (1,1) covered by two overlapping radius-3
fire zones, delta 0.1 s: the tick subtracts 2 × 15 × 0.1 = 3 health (97, not
98.5) and sends two `fireDamage` notifications — damage from overlapping
zones is cumulative, not "first qualifying zone wins". -/
theorem fire_overlap_single_application_cex :
    ((100 - 0 : ℚ) / 1000 = 1 / 10) ∧
    c2Player.health = 100 ∧
    (100 : ℚ) - 15 * (1 / 10) = 98.5 ∧
    findPlayer (tick 100 0 c2State).1 "a" = some { c2Player with health := 97 } ∧
    (tick 100 0 c2State).2.countP (isFireDamageOf "a") = 2 := by
  refine ⟨by norm_num, rfl, by norm_num, ?_, ?_⟩
  · norm_num [tick, ringStep, ringUpdateEvents, projectilesStep, projPhase, fireZonesStep,
      firePhase, stepFireZone, mapWithEvents, fireDamagePlayer, TICK_RATE, findPlayer,
      c2State, c2Player, c2Zone1, c2Zone2]
  · norm_num [tick, ringStep, ringUpdateEvents, projectilesStep, projPhase, fireZonesStep,
      firePhase, stepFireZone, mapWithEvents, fireDamagePlayer, TICK_RATE, isFireDamageOf,
      c2State, c2Player, c2Zone1, c2Zone2]

/-- C2 witness: the amended cumulative rule applied to the two-zone world —
health drops by exactly 2 × 15 × delta with two `fireDamage` events. -/
theorem fire_damage_cumulative_witness :
    findPlayer (tick 100 0 c2State).1 "a" =
      some { c2Player with health :=
        c2Player.health - (c2State.fireZones.length : ℚ) * (15 * ((100 - 0) / 1000)) } ∧
    (tick 100 0 c2State).2.countP (isFireDamageOf "a") = c2State.fireZones.length := by
  have h := fire_damage_cumulative c2State 100 0 [] [] c2Player rfl (by simp) rfl rfl
    (by
      intro z hz
      simp [c2State] at hz
      rcases hz with rfl | rfl
      · norm_num [c2Zone1, c2Player, TICK_RATE]
      · norm_num [c2Zone2, c2Player, TICK_RATE])
    (by norm_num)
    (by norm_num [c2Player, c2State])
  exact h

/-! Event-shape lemmas: which constructors each tick segment can emit. -/

theorem ringStepPlayer_events_shape (delta r : ℚ) (q : Player) :
    ∀ e ∈ (ringStepPlayer delta r q).2,
      (∃ i k, e = Event.playerDied i k) ∨ (∃ i h, e = Event.ringDamage i h) := by
  intro e he
  simp only [ringStepPlayer] at he
  split_ifs at he <;> simp only [List.mem_singleton, List.not_mem_nil] at he
  · exact Or.inl ⟨_, _, he⟩
  · exact Or.inr ⟨_, _, he⟩

theorem ringStep_events_shape (delta : ℚ) (s : GameState) :
    ∀ e ∈ (ringStep delta s).2,
      (∃ i k, e = Event.playerDied i k) ∨ (∃ i h, e = Event.ringDamage i h) := by
  intro e he
  by_cases hg : s.gameStarted = true ∧ s.ringRadius > 5
  · rw [(ringStep_players_pos delta s hg).2, mapWithEvents_snd] at he
    obtain ⟨l, hl, he⟩ := List.mem_flatten.mp he
    obtain ⟨q, _, rfl⟩ := List.mem_map.mp hl
    exact ringStepPlayer_events_shape _ _ q e he
  · rw [ringStep_of_not delta s hg] at he
    simp at he

theorem ringUpdateEvents_shape (now : ℚ) (s : GameState) :
    ∀ e ∈ ringUpdateEvents now s, ∃ r t, e = Event.ringUpdate r t := by
  intro e he
  unfold ringUpdateEvents at he
  split at he <;> simp only [List.mem_singleton, List.not_mem_nil] at he
  exact ⟨_, _, he⟩

theorem fireDamagePlayer_events_shape (delta : ℚ) (fire : FireZone) (q : Player) :
    ∀ e ∈ (fireDamagePlayer delta fire q).2,
      (∃ i k, e = Event.playerDied i k) ∨ (∃ i h, e = Event.fireDamage i h) := by
  intro e he
  simp only [fireDamagePlayer] at he
  split_ifs at he <;>
    simp only [List.mem_cons, List.mem_singleton, List.not_mem_nil, or_false] at he
  · rcases he with he | he
    · exact Or.inr ⟨_, _, he⟩
    · exact Or.inl ⟨_, _, he⟩
  · exact Or.inr ⟨_, _, he⟩

theorem firePhase_events_shape (delta : ℚ) :
    ∀ (zs : List FireZone) (ps : List Player) (e : Event),
      e ∈ (firePhase delta ps zs).events →
      (∃ i k, e = Event.playerDied i k) ∨ (∃ i h, e = Event.fireDamage i h) := by
  intro zs
  induction zs with
  | nil => intro ps e he; simp [firePhase] at he
  | cons z rest ih =>
    intro ps e he
    rw [firePhase_cons_events] at he
    rcases List.mem_append.mp he with he | he
    · simp only [stepFireZone] at he
      split at he
      · simp at he
      · rw [mapWithEvents_snd] at he
        obtain ⟨l, hl, he⟩ := List.mem_flatten.mp he
        obtain ⟨q, _, rfl⟩ := List.mem_map.mp hl
        exact fireDamagePlayer_events_shape _ _ q e he
    · exact ih _ e he

theorem fireZonesStep_events_shape (delta : ℚ) (s : GameState) :
    ∀ e ∈ (fireZonesStep delta s).2,
      (∃ i k, e = Event.playerDied i k) ∨ (∃ i h, e = Event.fireDamage i h) ∨
        (∃ ids, e = Event.fireZonesRemoved ids) := by
  intro e he
  have : e ∈ (firePhase delta s.players s.fireZones).events ++
      (if (firePhase delta s.players s.fireZones).toRemove ≠ [] then
        [Event.fireZonesRemoved (firePhase delta s.players s.fireZones).toRemove]
      else []) := he
  rcases List.mem_append.mp this with h | h
  · rcases firePhase_events_shape delta s.fireZones s.players e h with h | h
    · exact Or.inl h
    · exact Or.inr (Or.inl h)
  · split at h <;> simp only [List.mem_singleton, List.not_mem_nil] at h
    exact Or.inr (Or.inr ⟨_, h⟩)

/-! Projectile-step analysis for C3. -/

theorem projPhase_cons_players (delta : ℚ) (ps : List Player) (q : Projectile)
    (projs : List Projectile) :
    (projPhase delta ps (q :: projs)).players =
      (projPhase delta (stepProjectile delta ps q).players projs).players := rfl

theorem projPhase_cons_toRemove (delta : ℚ) (ps : List Player) (q : Projectile)
    (projs : List Projectile) :
    (projPhase delta ps (q :: projs)).toRemove =
      (stepProjectile delta ps q).toRemove ++
        (projPhase delta (stepProjectile delta ps q).players projs).toRemove := rfl

theorem projPhase_cons_events (delta : ℚ) (ps : List Player) (q : Projectile)
    (projs : List Projectile) :
    (projPhase delta ps (q :: projs)).events =
      (stepProjectile delta ps q).events ++
        (projPhase delta (stepProjectile delta ps q).players projs).events := rfl

/-- The first-hit scan marks at most the scanned projectile itself, and every
event it emits is a `playerHit` carrying that projectile's id or a
`playerDied`. -/
theorem tryHitPlayers_shape (proj : Projectile) :
    ∀ ps : List Player,
      ((tryHitPlayers proj ps).2.1 = [] ∨ (tryHitPlayers proj ps).2.1 = [proj.id]) ∧
      (∀ e ∈ (tryHitPlayers proj ps).2.2,
        (∃ pid h fid, e = Event.playerHit pid h proj.id fid) ∨
          (∃ i k, e = Event.playerDied i k)) := by
  intro ps
  induction ps with
  | nil => exact ⟨Or.inl rfl, by simp [tryHitPlayers]⟩
  | cons p ps ih =>
    rw [tryHitPlayers]
    split
    · refine ⟨Or.inr rfl, ?_⟩
      intro e he
      simp only [List.mem_cons] at he
      rcases he with rfl | he
      · exact Or.inl ⟨_, _, _, rfl⟩
      · split at he <;> simp only [List.mem_singleton, List.not_mem_nil] at he
        exact Or.inr ⟨_, _, he⟩
    · exact ih

/-- One projectile-loop iteration: the removal marks are copies of the
projectile's own id (up to two), and the events are `playerHit`s with its id
or `playerDied`s. -/
theorem stepProjectile_shape (delta : ℚ) (ps : List Player) (q : Projectile) :
    ((stepProjectile delta ps q).toRemove = [] ∨
      (stepProjectile delta ps q).toRemove = [q.id] ∨
      (stepProjectile delta ps q).toRemove = [q.id, q.id]) ∧
    (∀ e ∈ (stepProjectile delta ps q).events,
      (∃ pid h fid, e = Event.playerHit pid h q.id fid) ∨
        (∃ i k, e = Event.playerDied i k)) := by
  simp only [stepProjectile]
  split
  · exact ⟨Or.inr (Or.inl rfl), by simp⟩
  · obtain ⟨hrem, hev⟩ := tryHitPlayers_shape _ ps
    constructor
    · rcases hrem with h | h <;> rw [h] <;> split
      · exact Or.inr (Or.inl rfl)
      · exact Or.inl rfl
      · exact Or.inr (Or.inr rfl)
      · exact Or.inr (Or.inl rfl)
    · exact hev

/-- A projectile whose integrated position collides with a wall is marked
exactly once and emits nothing. -/
theorem stepProjectile_wall (delta : ℚ) (ps : List Player) (pr : Projectile)
    (hwall : checkWallCollision (pr.x + pr.vx * delta) (pr.z + pr.vz * delta) = true) :
    (stepProjectile delta ps pr).players = ps ∧
    (stepProjectile delta ps pr).toRemove = [pr.id] ∧
    (stepProjectile delta ps pr).events = [] := by
  simp only [stepProjectile]
  rw [if_pos hwall]
  exact ⟨rfl, rfl, rfl⟩

/-- Projectiles with ids different from `x` contribute no `x` marks and no
`playerHit` events with projectile id `x`. -/
theorem projPhase_count_zero (delta : ℚ) (x : ProjId) :
    ∀ (projs : List Projectile) (ps : List Player), (∀ q ∈ projs, q.id ≠ x) →
      (projPhase delta ps projs).toRemove.count x = 0 ∧
      (projPhase delta ps projs).events.countP (isHitBy x) = 0 := by
  intro projs
  induction projs with
  | nil => intro ps _; exact ⟨rfl, rfl⟩
  | cons q projs ih =>
    intro ps h
    have hq : q.id ≠ x := h q (List.mem_cons_self q projs)
    have hbeq : (q.id == x) = false := by simp [hq]
    obtain ⟨ih1, ih2⟩ := ih (stepProjectile delta ps q).players
      fun r hr => h r (List.mem_cons_of_mem q hr)
    obtain ⟨hrem, hev⟩ := stepProjectile_shape delta ps q
    constructor
    · rw [projPhase_cons_toRemove, List.count_append, ih1]
      rcases hrem with h' | h' | h' <;> rw [h'] <;> simp [List.count_cons, hbeq]
    · rw [projPhase_cons_events, List.countP_append, ih2]
      rw [List.countP_eq_zero.mpr]
      intro e he
      rcases hev e he with ⟨pid, hh, fid, rfl⟩ | ⟨i, k, rfl⟩ <;> simp [isHitBy, hbeq]

/-- Down a projectile list containing a wall-hitting projectile `pr` whose id
is unique, the loop marks `pr.id` exactly once and emits no `playerHit` for
it. -/
theorem projPhase_wall (delta : ℚ) (pr : Projectile)
    (hwall : checkWallCollision (pr.x + pr.vx * delta) (pr.z + pr.vz * delta) = true) :
    ∀ (q₁ : List Projectile) (ps : List Player) (q₂ : List Projectile),
      (∀ q ∈ q₁ ++ q₂, q.id ≠ pr.id) →
      (projPhase delta ps (q₁ ++ pr :: q₂)).toRemove.count pr.id = 1 ∧
      (projPhase delta ps (q₁ ++ pr :: q₂)).events.countP (isHitBy pr.id) = 0 := by
  intro q₁
  induction q₁ with
  | nil =>
    intro ps q₂ hids
    obtain ⟨hp, hrem, hev⟩ := stepProjectile_wall delta ps pr hwall
    rw [List.nil_append]
    obtain ⟨h1, h2⟩ := projPhase_count_zero delta pr.id q₂
      (stepProjectile delta ps pr).players (by simpa using hids)
    constructor
    · rw [projPhase_cons_toRemove, List.count_append, hrem, h1]
      simp
    · rw [projPhase_cons_events, List.countP_append, hev, h2]
      simp
  | cons q q₁ ih =>
    intro ps q₂ hids
    have hq : q.id ≠ pr.id := hids q (by simp)
    have hbeq : (q.id == pr.id) = false := by simp [hq]
    obtain ⟨hrem, hev⟩ := stepProjectile_shape delta ps q
    obtain ⟨ih1, ih2⟩ := ih (stepProjectile delta ps q).players q₂
      fun r hr => hids r (by
        rcases List.mem_append.mp hr with h | h
        · exact List.mem_append_left _ (List.mem_cons_of_mem q h)
        · exact List.mem_append_right _ h)
    rw [List.cons_append]
    constructor
    · rw [projPhase_cons_toRemove, List.count_append, ih1]
      rcases hrem with h' | h' | h' <;> rw [h'] <;> simp [List.count_cons, hbeq]
    · rw [projPhase_cons_events, List.countP_append, ih2]
      have hz : (stepProjectile delta ps q).events.countP (isHitBy pr.id) = 0 :=
        List.countP_eq_zero.mpr fun e he => by
          rcases hev e he with ⟨pid, hh, fid, rfl⟩ | ⟨i, k, rfl⟩ <;> simp [isHitBy, hbeq]
      rw [hz]

theorem tick_projectiles_eq (now lastT : ℚ) (s : GameState) :
    (tick now lastT s).1.projectiles =
      (projectilesStep ((now - lastT) / 1000) (ringStep ((now - lastT) / 1000) s).1).1.projectiles
    := rfl

theorem tick_events_eq (now lastT : ℚ) (s : GameState) :
    (tick now lastT s).2 =
      (ringStep ((now - lastT) / 1000) s).2 ++
        ringUpdateEvents now (ringStep ((now - lastT) / 1000) s).1 ++
        (projectilesStep ((now - lastT) / 1000) (ringStep ((now - lastT) / 1000) s).1).2 ++
        (fireZonesStep ((now - lastT) / 1000)
          (projectilesStep ((now - lastT) / 1000) (ringStep ((now - lastT) / 1000) s).1).1).2
    := rfl

theorem projectilesStep_events_eq (delta : ℚ) (s : GameState) :
    (projectilesStep delta s).2 =
      (projPhase delta s.players s.projectiles).events ++
        (if (projPhase delta s.players s.projectiles).toRemove ≠ [] then
          [Event.projectilesRemoved (projPhase delta s.players s.projectiles).toRemove]
        else []) := rfl

theorem removedIdBatches_append (a b : List Event) :
    removedIdBatches (a ++ b) = removedIdBatches a ++ removedIdBatches b := by
  unfold removedIdBatches
  rw [List.filterMap_append, List.flatten_append]

theorem removedIdBatches_eq_nil (evs : List Event)
    (h : ∀ e ∈ evs, projRemovedIds e = none) : removedIdBatches evs = [] := by
  unfold removedIdBatches
  rw [List.filterMap_eq_nil_iff.mpr h]
  rfl

theorem projPhase_events_shape (delta : ℚ) :
    ∀ (projs : List Projectile) (ps : List Player) (e : Event),
      e ∈ (projPhase delta ps projs).events →
      (∃ pid h prid fid, e = Event.playerHit pid h prid fid) ∨
        (∃ i k, e = Event.playerDied i k) := by
  intro projs
  induction projs with
  | nil => intro ps e he; simp [projPhase] at he
  | cons q projs ih =>
    intro ps e he
    rw [projPhase_cons_events] at he
    rcases List.mem_append.mp he with he | he
    · rcases (stepProjectile_shape delta ps q).2 e he with ⟨pid, h, fid, rfl⟩ | ⟨i, k, rfl⟩
      · exact Or.inl ⟨_, _, _, _, rfl⟩
      · exact Or.inr ⟨_, _, rfl⟩
    · exact ih _ e he

theorem projectilesStep_projectiles_eq (delta : ℚ) (s : GameState) :
    (projectilesStep delta s).1.projectiles =
      (if (projPhase delta s.players s.projectiles).toRemove ≠ [] then
        (projPhase delta s.players s.projectiles).projectiles.filter
          (fun p => ¬(projPhase delta s.players s.projectiles).toRemove.contains p.id)
      else (projPhase delta s.players s.projectiles).projectiles) := rfl

/-- C3 (amended): a projectile whose integrated position collides with a wall
is destroyed by that cause alone — it generates no `playerHit` that tick, its
id enters the tick's removal batch exactly once, and it is gone from the
post-tick world.  The original claim's stronger guarantee — that no
projectile id ever appears twice in the batch — fails for the player-hit /
out-of-bounds pair, which the code checks sequentially without exclusion (see
the counterexample). -/
theorem projectile_wall_exclusive (s : GameState) (now lastT : ℚ)
    (q₁ q₂ : List Projectile) (pr : Projectile)
    (hprojs : s.projectiles = q₁ ++ pr :: q₂)
    (hids : ∀ q ∈ q₁ ++ q₂, q.id ≠ pr.id)
    (hwall : checkWallCollision (pr.x + pr.vx * ((now - lastT) / 1000))
      (pr.z + pr.vz * ((now - lastT) / 1000)) = true) :
    ((tick now lastT s).2.countP (isHitBy pr.id) = 0) ∧
    ((removedIdBatches (tick now lastT s).2).count pr.id = 1) ∧
    (∀ q ∈ (tick now lastT s).1.projectiles, q.id ≠ pr.id) := by
  set delta := (now - lastT) / 1000 with hdelta
  set R := (ringStep delta s).1 with hR
  have hRproj : R.projectiles = q₁ ++ pr :: q₂ := by
    rw [hR, ringStep_projectiles, hprojs]
  have hw := projPhase_wall delta pr hwall q₁ R.players q₂ hids
  have hPH : projPhase delta R.players R.projectiles =
      projPhase delta R.players (q₁ ++ pr :: q₂) := by rw [hRproj]
  have hne : (projPhase delta R.players R.projectiles).toRemove ≠ [] := by
    rw [hPH]
    intro hnil
    rw [hnil] at hw
    simp at hw
  have hmem : pr.id ∈ (projPhase delta R.players R.projectiles).toRemove := by
    rw [hPH]
    exact List.count_pos_iff.mp (by rw [hw.1]; norm_num)
  refine ⟨?_, ?_, ?_⟩
  · have hring : (ringStep delta s).2.countP (isHitBy pr.id) = 0 :=
      List.countP_eq_zero.mpr fun e he => by
        rcases ringStep_events_shape delta s e he with ⟨i, k, rfl⟩ | ⟨i, h, rfl⟩ <;>
          simp [isHitBy]
    have hru : (ringUpdateEvents now R).countP (isHitBy pr.id) = 0 :=
      List.countP_eq_zero.mpr fun e he => by
        obtain ⟨r, t, rfl⟩ := ringUpdateEvents_shape now R e he
        simp [isHitBy]
    have hfire : (fireZonesStep delta (projectilesStep delta R).1).2.countP (isHitBy pr.id)
        = 0 :=
      List.countP_eq_zero.mpr fun e he => by
        rcases fireZonesStep_events_shape delta _ e he with
          ⟨i, k, rfl⟩ | ⟨i, h, rfl⟩ | ⟨ids, rfl⟩ <;> simp [isHitBy]
    have hproj : (projectilesStep delta R).2.countP (isHitBy pr.id) = 0 := by
      rw [projectilesStep_events_eq, if_pos hne, List.countP_append]
      rw [show (projPhase delta R.players R.projectiles).events.countP (isHitBy pr.id) = 0 by
        rw [hPH]; exact hw.2]
      simp [isHitBy, List.countP_cons]
    rw [tick_events_eq, List.countP_append, List.countP_append, List.countP_append,
      ← hdelta, ← hR, hring, hru, hproj, hfire]
  · have hring : removedIdBatches (ringStep delta s).2 = [] :=
      removedIdBatches_eq_nil _ fun e he => by
        rcases ringStep_events_shape delta s e he with ⟨i, k, rfl⟩ | ⟨i, h, rfl⟩ <;>
          simp [projRemovedIds]
    have hru : removedIdBatches (ringUpdateEvents now R) = [] :=
      removedIdBatches_eq_nil _ fun e he => by
        obtain ⟨r, t, rfl⟩ := ringUpdateEvents_shape now R e he
        simp [projRemovedIds]
    have hfire : removedIdBatches (fireZonesStep delta (projectilesStep delta R).1).2 = [] :=
      removedIdBatches_eq_nil _ fun e he => by
        rcases fireZonesStep_events_shape delta _ e he with
          ⟨i, k, rfl⟩ | ⟨i, h, rfl⟩ | ⟨ids, rfl⟩ <;> simp [projRemovedIds]
    have hproj : removedIdBatches (projectilesStep delta R).2 =
        (projPhase delta R.players R.projectiles).toRemove := by
      rw [projectilesStep_events_eq, removedIdBatches_append]
      rw [removedIdBatches_eq_nil _ fun e he => by
        rcases projPhase_events_shape delta R.projectiles R.players e he with
          ⟨pid, h, prid, fid, rfl⟩ | ⟨i, k, rfl⟩ <;> simp [projRemovedIds]]
      rw [if_pos hne]
      unfold removedIdBatches projRemovedIds
      simp
    rw [tick_events_eq, removedIdBatches_append, removedIdBatches_append,
      removedIdBatches_append, ← hdelta, ← hR, hring, hru, hproj, hfire]
    simp only [List.nil_append, List.append_nil]
    rw [hPH, hw.1]
  · intro q hq
    rw [tick_projectiles_eq] at hq
    rw [← hdelta, ← hR] at hq
    rw [projectilesStep_projectiles_eq, if_pos hne] at hq
    obtain ⟨-, hcond⟩ := List.mem_filter.mp hq
    intro heq
    rw [decide_eq_true_eq] at hcond
    exact hcond (List.contains_iff_exists_mem_beq.mpr ⟨pr.id, hmem, by rw [heq]; simp⟩)

/-- C3 counterexample: a projectile that hits a player while already outside
the map bound |x| > 80 is pushed into `projectilesToRemove` twice — once by
the player-collision branch and once by the out-of-bounds check — so its id
appears twice in the broadcast removal batch, refuting mutual exclusion of
removal causes. -/
theorem projectile_removal_duplicate_cex :
    checkWallCollision (c3Proj.x + c3Proj.vx * ((100 - 0) / 1000))
      (c3Proj.z + c3Proj.vz * ((100 - 0) / 1000)) = false ∧
    (tick 100 0 c3State).2.countP (isHitBy c3Proj.id) = 1 ∧
    (removedIdBatches (tick 100 0 c3State).2).count c3Proj.id = 2 := by
  have hne : ¬(("a" : String) = "b") := by decide
  refine ⟨by norm_num [checkWallCollision, walls, c3Proj], ?_, ?_⟩
  · norm_num [tick, ringStep, ringUpdateEvents, projectilesStep, projPhase, stepProjectile,
      tryHitPlayers, checkWallCollision, walls, fireZonesStep, firePhase, mapWithEvents,
      isHitBy, TICK_RATE, c3State, c3Player, c3Proj, hne]
  · norm_num [tick, ringStep, ringUpdateEvents, projectilesStep, projPhase, stepProjectile,
      tryHitPlayers, checkWallCollision, walls, fireZonesStep, firePhase, mapWithEvents,
      removedIdBatches, TICK_RATE, c3State, c3Player, c3Proj, hne]
    rw [if_neg (show ¬([(⟨"b", 0, 0⟩ : ProjId), ⟨"b", 0, 0⟩] = []) by simp)]
    simp [projRemovedIds, List.count_cons]

/-- C3 witness: a wall-hitting projectile produces no `playerHit`, lands in
the removal batch exactly once, and is absent from the next state. -/
theorem projectile_wall_exclusive_witness :
    checkWallCollision (c3wProj.x + c3wProj.vx * ((100 - 0) / 1000))
      (c3wProj.z + c3wProj.vz * ((100 - 0) / 1000)) = true ∧
    ((tick 100 0 c3wState).2.countP (isHitBy c3wProj.id) = 0) ∧
    ((removedIdBatches (tick 100 0 c3wState).2).count c3wProj.id = 1) ∧
    (∀ q ∈ (tick 100 0 c3wState).1.projectiles, q.id ≠ c3wProj.id) := by
  have hwall : checkWallCollision (c3wProj.x + c3wProj.vx * ((100 - 0) / 1000))
      (c3wProj.z + c3wProj.vz * ((100 - 0) / 1000)) = true := by
    norm_num [checkWallCollision, walls, c3wProj]
  have h := projectile_wall_exclusive c3wState 100 0 [] [] c3wProj rfl (by simp) hwall
  exact ⟨hwall, h.1, h.2.1, h.2.2⟩

theorem fireZonesStep_events_eq (delta : ℚ) (s : GameState) :
    (fireZonesStep delta s).2 =
      (firePhase delta s.players s.fireZones).events ++
        (if (firePhase delta s.players s.fireZones).toRemove ≠ [] then
          [Event.fireZonesRemoved (firePhase delta s.players s.fireZones).toRemove]
        else []) := rfl

/-- First-hit scan over a single qualifying player whose health does not
survive the damage: the `playerHit` event carries the un-clamped health
`p.health - proj.damage` while the stored health becomes 0. -/
theorem tryHitPlayers_single_fatal (proj : Projectile) (p : Player)
    (hne : p.id ≠ proj.ownerId) (halive : p.health > 0)
    (hdist : (proj.x - p.x) * (proj.x - p.x) + (proj.z - p.z) * (proj.z - p.z) < 0.49)
    (hfatal : p.health - proj.damage ≤ 0) :
    tryHitPlayers proj [p] =
      ([{ p with health := 0 }], [proj.id],
       [Event.playerHit p.id (p.health - proj.damage) proj.id proj.ownerId,
        Event.playerDied p.id (some proj.ownerId)]) := by
  rw [tryHitPlayers]
  rw [if_pos ⟨hne, halive, hdist⟩]
  show ([{ p with health := if p.health - proj.damage ≤ 0 then 0
            else p.health - proj.damage }],
      [proj.id],
      Event.playerHit p.id (p.health - proj.damage) proj.id proj.ownerId ::
        if p.health - proj.damage ≤ 0 then [Event.playerDied p.id (some proj.ownerId)]
        else []) = _
  rw [if_pos hfatal, if_pos hfatal]

theorem stepProjectile_fatal_hit (delta : ℚ) (p : Player) (pr : Projectile)
    (hwallf : checkWallCollision (pr.x + pr.vx * delta) (pr.z + pr.vz * delta) = false)
    (hne : p.id ≠ pr.ownerId) (halive : p.health > 0)
    (hdist : ((pr.x + pr.vx * delta) - p.x) * ((pr.x + pr.vx * delta) - p.x) +
      ((pr.z + pr.vz * delta) - p.z) * ((pr.z + pr.vz * delta) - p.z) < 0.49)
    (hfatal : p.health - pr.damage ≤ 0) :
    (stepProjectile delta [p] pr).players = [{ p with health := 0 }] ∧
    (stepProjectile delta [p] pr).events =
      [Event.playerHit p.id (p.health - pr.damage) pr.id pr.ownerId,
       Event.playerDied p.id (some pr.ownerId)] := by
  simp only [stepProjectile]
  rw [if_neg (by simp [hwallf])]
  rw [tryHitPlayers_single_fatal _ p (by exact hne) halive (by exact hdist) (by exact hfatal)]
  exact ⟨rfl, rfl⟩

/-- A living player inside an active zone who does not survive: the
`fireDamage` notification carries the un-clamped health while the stored
health becomes 0, followed by a `playerDied` attributed to "fire". -/
theorem fireDamagePlayer_self_fatal (delta : ℚ) (fire : FireZone) (p : Player)
    (halive : p.health > 0)
    (hin : 0 < fire.radius ∧
      (fire.x - p.x) * (fire.x - p.x) + (fire.z - p.z) * (fire.z - p.z) <
        fire.radius * fire.radius)
    (hf : p.health - 15 * delta ≤ 0) :
    fireDamagePlayer delta fire p =
      ({ p with health := 0 },
       [Event.fireDamage p.id (p.health - 15 * delta),
        Event.playerDied p.id (some "fire")]) := by
  simp only [fireDamagePlayer]
  rw [if_pos halive, if_pos hin, if_pos hf]

/-- C10: on a fatal projectile hit the broadcast `playerHit` carries the
un-clamped health `health - damage` (possibly negative) while the stored
health is clamped to 0 before the tick ends; likewise the targeted
`fireDamage` notification on a fatal fire-zone tick carries `health -
15·delta` while the store is clamped to 0. -/
theorem unclamped_health_in_events :
    (∀ (s : GameState) (now lastT : ℚ) (p : Player) (pr : Projectile),
      s.players = [p] → s.projectiles = [pr] → s.fireZones = [] →
      s.gameStarted = false →
      p.id ≠ pr.ownerId → p.health > 0 →
      checkWallCollision (pr.x + pr.vx * ((now - lastT) / 1000))
        (pr.z + pr.vz * ((now - lastT) / 1000)) = false →
      ((pr.x + pr.vx * ((now - lastT) / 1000)) - p.x) *
          ((pr.x + pr.vx * ((now - lastT) / 1000)) - p.x) +
        ((pr.z + pr.vz * ((now - lastT) / 1000)) - p.z) *
          ((pr.z + pr.vz * ((now - lastT) / 1000)) - p.z) < 0.49 →
      p.health - pr.damage ≤ 0 →
      Event.playerHit p.id (p.health - pr.damage) pr.id pr.ownerId ∈ (tick now lastT s).2 ∧
      Event.playerDied p.id (some pr.ownerId) ∈ (tick now lastT s).2 ∧
      findPlayer (tick now lastT s).1 p.id = some { p with health := 0 }) ∧
    (∀ (s : GameState) (now lastT : ℚ) (p : Player) (f : FireZone),
      s.players = [p] → s.projectiles = [] → s.fireZones = [f] →
      s.gameStarted = false →
      0 < f.timeLeft - TICK_RATE → 0 < f.radius →
      (f.x - p.x) * (f.x - p.x) + (f.z - p.z) * (f.z - p.z) < f.radius * f.radius →
      p.health > 0 →
      p.health - 15 * ((now - lastT) / 1000) ≤ 0 →
      Event.fireDamage p.id (p.health - 15 * ((now - lastT) / 1000)) ∈ (tick now lastT s).2 ∧
      Event.playerDied p.id (some "fire") ∈ (tick now lastT s).2 ∧
      findPlayer (tick now lastT s).1 p.id = some { p with health := 0 }) := by
  constructor
  · intro s now lastT p pr hps hpr hfz hgs hne halive hwallf hdist hfatal
    have h1 : ringStep ((now - lastT) / 1000) s = (s, []) := by
      refine ringStep_of_not _ _ fun hg => ?_
      rw [hgs] at hg
      exact absurd hg.1 (by simp)
    have hstep := stepProjectile_fatal_hit ((now - lastT) / 1000) p pr hwallf hne halive
      hdist hfatal
    have hPHe : (projPhase ((now - lastT) / 1000) s.players s.projectiles).events =
        [Event.playerHit p.id (p.health - pr.damage) pr.id pr.ownerId,
         Event.playerDied p.id (some pr.ownerId)] := by
      rw [hps, hpr, projPhase_cons_events, hstep.2]
      simp [projPhase]
    have hPHp : (projPhase ((now - lastT) / 1000) s.players s.projectiles).players =
        [{ p with health := 0 }] := by
      rw [hps, hpr, projPhase_cons_players, hstep.1]
      rfl
    have hc1 : Event.playerHit p.id (p.health - pr.damage) pr.id pr.ownerId ∈
        (projectilesStep ((now - lastT) / 1000) s).2 := by
      rw [projectilesStep_events_eq]
      exact List.mem_append_left _ (by rw [hPHe]; simp)
    have hc2 : Event.playerDied p.id (some pr.ownerId) ∈
        (projectilesStep ((now - lastT) / 1000) s).2 := by
      rw [projectilesStep_events_eq]
      exact List.mem_append_left _ (by rw [hPHe]; simp)
    refine ⟨?_, ?_, ?_⟩
    · rw [tick_events_eq]
      simp only [h1]
      exact List.mem_append_left _ (List.mem_append_right _ hc1)
    · rw [tick_events_eq]
      simp only [h1]
      exact List.mem_append_left _ (List.mem_append_right _ hc2)
    · have hplayers : (tick now lastT s).1.players = [{ p with health := 0 }] := by
        rw [tick_players_eq]
        simp only [h1]
        rw [hfz, hPHp]
        rfl
      unfold findPlayer
      rw [hplayers]
      simp [List.find?]
  · intro s now lastT p f hps hpr hfz hgs hzt hzr hzd halive hfatal
    obtain ⟨ht1, ht2⟩ := tick_fire_only now lastT s hgs hpr
    have hfdp := fireDamagePlayer_self_fatal ((now - lastT) / 1000)
      { f with timeLeft := f.timeLeft - TICK_RATE } p halive
      ⟨by exact hzr, by exact hzd⟩ hfatal
    have hfpe : (firePhase ((now - lastT) / 1000) s.players s.fireZones).events =
        [Event.fireDamage p.id (p.health - 15 * ((now - lastT) / 1000)),
         Event.playerDied p.id (some "fire")] := by
      rw [hps, hfz, firePhase_cons_events,
        (stepFireZone_active ((now - lastT) / 1000) [p] f hzt).2, mapWithEvents_snd]
      simp only [List.map_cons, List.map_nil]
      rw [hfdp]
      simp [firePhase]
    have hfpp : (firePhase ((now - lastT) / 1000) s.players s.fireZones).players =
        [{ p with health := 0 }] := by
      rw [hps, hfz, firePhase_cons_players,
        (stepFireZone_active ((now - lastT) / 1000) [p] f hzt).1, mapWithEvents_fst]
      simp only [List.map_cons, List.map_nil]
      rw [hfdp]
      rfl
    refine ⟨?_, ?_, ?_⟩
    · rw [ht2, fireZonesStep_events_eq]
      refine List.mem_append_right _ (List.mem_append_left _ ?_)
      rw [hfpe]
      simp
    · rw [ht2, fireZonesStep_events_eq]
      refine List.mem_append_right _ (List.mem_append_left _ ?_)
      rw [hfpe]
      simp
    · have hplayers : (tick now lastT s).1.players = [{ p with health := 0 }] := by
        rw [ht1, fireZonesStep_players, hfpp]
      unfold findPlayer
      rw [hplayers]
      simp [List.find?]

/-- C10 witness: a 50-damage projectile on a 10-health player broadcasts
`playerHit` with health −40 while the store clamps to 0; a fatal fire tick
sends `fireDamage` with the negative health while the store clamps to 0. -/
theorem unclamped_health_in_events_witness :
    c10Player.health - c10Proj.damage = -40 ∧
    Event.playerHit "a" (c10Player.health - c10Proj.damage) c10Proj.id "b" ∈
      (tick 100 0 c10AState).2 ∧
    findPlayer (tick 100 0 c10AState).1 "a" = some { c10Player with health := 0 } ∧
    c10FirePlayer.health - 15 * ((100 - 0) / 1000) = -1 / 2 ∧
    Event.fireDamage "d" (c10FirePlayer.health - 15 * ((100 - 0) / 1000)) ∈
      (tick 100 0 c10BState).2 ∧
    findPlayer (tick 100 0 c10BState).1 "d" = some { c10FirePlayer with health := 0 } := by
  have hA := unclamped_health_in_events.1 c10AState 100 0 c10Player c10Proj rfl rfl rfl rfl
    (by decide) (by norm_num [c10Player])
    (by norm_num [checkWallCollision, walls, c10Proj])
    (by norm_num [c10Proj, c10Player]) (by norm_num [c10Player, c10Proj])
  have hB := unclamped_health_in_events.2 c10BState 100 0 c10FirePlayer c10Fire rfl rfl rfl
    rfl (by norm_num [c10Fire, TICK_RATE]) (by norm_num [c10Fire])
    (by norm_num [c10Fire, c10FirePlayer]) (by norm_num [c10FirePlayer])
    (by norm_num [c10FirePlayer])
  exact ⟨by norm_num [c10Player, c10Proj], hA.1, hA.2.2,
    by norm_num [c10FirePlayer], hB.1, hB.2.2⟩

end GameServer
